import Mathlib

/-!
Verification of the schedule builder in `Final_Project_Part_I.py` (planner.py).

Timestamps (`datetime` values in the source) are modelled as rational numbers
measured in minutes; `timedelta(minutes=m)` is addition of `m`.  A scheduled
block `(start_time, end_time, label)` is a triple `ℚ × ℚ × String`, and busy
calendar intervals are pairs `ℚ × ℚ`.  The allocation `while` loop of
`build_schedule` is split into the loop body `allocStep` (one iteration) and
the loop `allocLoop` driving it, whose termination is proved by a lexicographic
measure; the `for task in tasks_sorted` loop is `outerLoop`.
-/

namespace StudyPlanner

/-- A study task with a name, estimated duration, optional priority and
deadline, mirroring the `Task` dataclass. -/
structure Task where
  name : String
  duration_min : ℤ
  priority : ℤ := 1
  deadline : Option ℚ := none
deriving DecidableEq

/-- A scheduled time block: `(start_time, end_time, task_name or label)`. -/
abbrev Block := ℚ × ℚ × String

/-- `is_free_time`: true iff the block `[start, e)` does NOT overlap any busy
interval, where overlap is `start < b_end and e > b_start`. -/
def is_free_time (start e : ℚ) (busy_blocks : List (ℚ × ℚ)) : Prop :=
  ∀ b ∈ busy_blocks, ¬ (start < b.2 ∧ e > b.1)

instance (start e : ℚ) (busy_blocks : List (ℚ × ℚ)) :
    Decidable (is_free_time start e busy_blocks) :=
  List.decidableBAll _ busy_blocks

/-- Python `int()` applied to a float: truncation toward zero. -/
def pyInt (q : ℚ) : ℤ := if 0 ≤ q then ⌊q⌋ else ⌈q⌉

/-- `block_len = int(min(work_block_max, remaining, remaining_window))`. -/
def blockLen (wbm remaining : ℤ) (remWindow : ℚ) : ℤ :=
  pyInt (min (min (wbm : ℚ) (remaining : ℚ)) remWindow)

/-- `next((b_end for b_start, b_end in busy_blocks if b_start <= t < b_end), None)`:
the end of the first busy interval covering the instant `t`. -/
def firstCoveringEnd (t : ℚ) : List (ℚ × ℚ) → Option ℚ
  | [] => none
  | b :: rest => if b.1 ≤ t ∧ t < b.2 then some b.2 else firstCoveringEnd t rest

/-- `sort_key(task) = (-task.priority, task.deadline or datetime.max, task.name)`,
compared lexicographically; an absent deadline sorts after every concrete one. -/
def sort_key (t : Task) : Lex (ℤ × Lex ((WithTop ℚ) × String)) :=
  toLex (-t.priority, toLex ((t.deadline : WithTop ℚ), t.name))

/-- The (total, stable-sort) comparison used for `sorted(tasks, key=sort_key)`. -/
def taskLe (a b : Task) : Bool := decide (sort_key a ≤ sort_key b)

/-- Result of one iteration of the allocation `while` loop: either the loop
stops (`abort = true` for the two early `return schedule` sites, `false` when
the loop condition fails), or it goes around again with updated remaining
minutes, cursor and schedule. -/
inductive StepRes where
  | stop (abort : Bool)
  | next (remaining : ℤ) (cursor : ℚ) (sched : List Block)
deriving DecidableEq

/-- One iteration of the `while remaining > 0 and current_time < window_end`
loop of `build_schedule` (lines 78-110 of the source). -/
def allocStep (busy : List (ℚ × ℚ)) (wE : ℚ) (wbm brk : ℤ) (nm : String)
    (remaining : ℤ) (cursor : ℚ) (sched : List Block) : StepRes :=
  if 0 < remaining ∧ cursor < wE then
    if wE - cursor ≤ 0 then .stop true
    else if blockLen wbm remaining (wE - cursor) ≤ 0 then .stop true
    else if is_free_time cursor (cursor + (blockLen wbm remaining (wE - cursor) : ℚ)) busy then
      if 0 < remaining - blockLen wbm remaining (wE - cursor) ∧
          wE - (cursor + (blockLen wbm remaining (wE - cursor) : ℚ)) > (brk : ℚ) then
        .next (remaining - blockLen wbm remaining (wE - cursor))
          (cursor + (blockLen wbm remaining (wE - cursor) : ℚ) + (brk : ℚ))
          (sched ++ [(cursor, cursor + (blockLen wbm remaining (wE - cursor) : ℚ), nm),
            (cursor + (blockLen wbm remaining (wE - cursor) : ℚ),
              cursor + (blockLen wbm remaining (wE - cursor) : ℚ) + (brk : ℚ), "Break")])
      else
        .next (remaining - blockLen wbm remaining (wE - cursor))
          (cursor + (blockLen wbm remaining (wE - cursor) : ℚ))
          (sched ++ [(cursor, cursor + (blockLen wbm remaining (wE - cursor) : ℚ), nm)])
    else
      match firstCoveringEnd cursor busy with
      | some conflict => .next remaining conflict sched
      | none => .next remaining (cursor + 5) sched
  else .stop false

theorem pyInt_cast_le {q : ℚ} (h : 0 < pyInt q) : (pyInt q : ℚ) ≤ q := by
  unfold pyInt at h ⊢
  by_cases hq : 0 ≤ q
  · rw [if_pos hq]
    exact_mod_cast Int.floor_le q
  · rw [if_neg hq] at h
    push_neg at hq
    exfalso
    have hle : ⌈q⌉ ≤ ⌈(0 : ℚ)⌉ := Int.ceil_mono (le_of_lt hq)
    rw [Int.ceil_zero] at hle
    omega

/-- In the committed branch the block length is positive and bounded by each
of the three arguments of the `min`. -/
theorem blockLen_bounds {wbm remaining : ℤ} {remWindow : ℚ}
    (h : 0 < blockLen wbm remaining remWindow) :
    blockLen wbm remaining remWindow ≤ wbm ∧
      blockLen wbm remaining remWindow ≤ remaining ∧
      (blockLen wbm remaining remWindow : ℚ) ≤ remWindow := by
  have h2 : 0 < pyInt (min (min (wbm : ℚ) (remaining : ℚ)) remWindow) := h
  have hle := pyInt_cast_le h2
  unfold blockLen at *
  refine ⟨?_, ?_, ?_⟩
  · exact_mod_cast le_trans hle (le_trans (min_le_left _ _) (min_le_left _ _))
  · exact_mod_cast le_trans hle (le_trans (min_le_left _ _) (min_le_right _ _))
  · exact le_trans hle (min_le_right _ _)

theorem firstCoveringEnd_spec {t : ℚ} {busy : List (ℚ × ℚ)} {e : ℚ}
    (h : firstCoveringEnd t busy = some e) :
    ∃ bb ∈ busy, bb.1 ≤ t ∧ t < bb.2 ∧ e = bb.2 := by
  induction busy with
  | nil => simp [firstCoveringEnd] at h
  | cons b rest ih =>
    simp only [firstCoveringEnd] at h
    split at h
    · rename_i hc
      cases h
      exact ⟨b, List.mem_cons_self _ _, hc.1, hc.2, rfl⟩
    · rcases ih h with ⟨bb, hbb, h1, h2, h3⟩
      exact ⟨bb, List.mem_cons_of_mem _ hbb, h1, h2, h3⟩

/-- Inversion principle for a continuing iteration: either a work block (and
possibly a break) was committed, or the conflict-skipping branch advanced the
cursor. -/
theorem allocStep_next_inv {busy : List (ℚ × ℚ)} {wE : ℚ} {wbm brk : ℤ} {nm : String}
    {remaining : ℤ} {cursor : ℚ} {sched : List Block}
    {r' : ℤ} {c' : ℚ} {s' : List Block}
    (h : allocStep busy wE wbm brk nm remaining cursor sched = .next r' c' s') :
    0 < remaining ∧ cursor < wE ∧
      ((0 < blockLen wbm remaining (wE - cursor) ∧
          is_free_time cursor (cursor + (blockLen wbm remaining (wE - cursor) : ℚ)) busy ∧
          r' = remaining - blockLen wbm remaining (wE - cursor) ∧
          ((0 < r' ∧ wE - (cursor + (blockLen wbm remaining (wE - cursor) : ℚ)) > (brk : ℚ) ∧
              c' = cursor + (blockLen wbm remaining (wE - cursor) : ℚ) + (brk : ℚ) ∧
              s' = sched ++ [(cursor, cursor + (blockLen wbm remaining (wE - cursor) : ℚ), nm),
                (cursor + (blockLen wbm remaining (wE - cursor) : ℚ),
                  cursor + (blockLen wbm remaining (wE - cursor) : ℚ) + (brk : ℚ), "Break")]) ∨
            (¬ (0 < r' ∧ wE - (cursor + (blockLen wbm remaining (wE - cursor) : ℚ)) > (brk : ℚ)) ∧
              c' = cursor + (blockLen wbm remaining (wE - cursor) : ℚ) ∧
              s' = sched ++ [(cursor, cursor + (blockLen wbm remaining (wE - cursor) : ℚ), nm)]))) ∨
        (r' = remaining ∧ s' = sched ∧
          ((∃ bb ∈ busy, bb.1 ≤ cursor ∧ cursor < bb.2 ∧ c' = bb.2) ∨
            (firstCoveringEnd cursor busy = none ∧ c' = cursor + 5)))) := by
  unfold allocStep at h
  by_cases hg : 0 < remaining ∧ cursor < wE
  case neg => rw [if_neg hg] at h; cases h
  rw [if_pos hg] at h
  refine ⟨hg.1, hg.2, ?_⟩
  by_cases h0 : wE - cursor ≤ 0
  · rw [if_pos h0] at h; cases h
  rw [if_neg h0] at h
  by_cases hbl : blockLen wbm remaining (wE - cursor) ≤ 0
  · rw [if_pos hbl] at h; cases h
  rw [if_neg hbl] at h
  push_neg at hbl
  by_cases hfree : is_free_time cursor (cursor + (blockLen wbm remaining (wE - cursor) : ℚ)) busy
  · rw [if_pos hfree] at h
    left
    by_cases hbrk : 0 < remaining - blockLen wbm remaining (wE - cursor) ∧
        wE - (cursor + (blockLen wbm remaining (wE - cursor) : ℚ)) > (brk : ℚ)
    · rw [if_pos hbrk] at h
      cases h
      exact ⟨hbl, hfree, rfl, Or.inl ⟨hbrk.1, hbrk.2, rfl, rfl⟩⟩
    · rw [if_neg hbrk] at h
      cases h
      exact ⟨hbl, hfree, rfl, Or.inr ⟨hbrk, rfl, rfl⟩⟩
  · rw [if_neg hfree] at h
    right
    cases hfc : firstCoveringEnd cursor busy with
    | some conflict =>
      rw [hfc] at h
      cases h
      rcases firstCoveringEnd_spec hfc with ⟨bb, hbb, hb1, hb2, hb3⟩
      exact ⟨rfl, rfl, Or.inl ⟨bb, hbb, hb1, hb2, hb3⟩⟩
    | none =>
      rw [hfc] at h
      cases h
      exact ⟨rfl, rfl, Or.inr ⟨rfl, rfl⟩⟩

/-- Number of busy intervals whose end lies strictly after `t`; together with
the distance to the window end this bounds the conflict-skipping steps. -/
def busyAfter (busy : List (ℚ × ℚ)) (t : ℚ) : ℕ :=
  (busy.filter (fun b => decide (t < b.2))).length

theorem busyAfter_mono {busy : List (ℚ × ℚ)} {t t' : ℚ} (h : t ≤ t') :
    busyAfter busy t' ≤ busyAfter busy t := by
  induction busy with
  | nil => simp [busyAfter]
  | cons b rest ih =>
    simp only [busyAfter, List.filter_cons] at *
    by_cases h2 : t' < b.2
    · have h1 : t < b.2 := lt_of_le_of_lt h h2
      simp [h1, h2]
      omega
    · by_cases h1 : t < b.2 <;> simp [h1, h2] <;> omega

theorem busyAfter_lt {busy : List (ℚ × ℚ)} {bb : ℚ × ℚ} {t t' : ℚ}
    (hmem : bb ∈ busy) (h1 : t < bb.2) (h2 : bb.2 ≤ t') :
    busyAfter busy t' < busyAfter busy t := by
  have htt : t < t' := lt_of_lt_of_le h1 h2
  induction busy with
  | nil => simp at hmem
  | cons b rest ih =>
    have hmono : busyAfter rest t' ≤ busyAfter rest t := busyAfter_mono (le_of_lt htt)
    rcases List.mem_cons.mp hmem with hb | hb
    · subst hb
      have hn : ¬ t' < bb.2 := not_lt.mpr h2
      simp only [busyAfter, List.filter_cons] at *
      simp [h1, hn]
      omega
    · have hlt := ih hb
      simp only [busyAfter, List.filter_cons] at *
      by_cases hc : t' < b.2
      · have hc2 : t < b.2 := lt_trans htt hc
        simp [hc, hc2]
        omega
      · by_cases hc2 : t < b.2 <;> simp [hc, hc2] <;> omega

/-- The measure strictly decreases (lexicographically) whenever `allocStep`
sends the loop around again. -/
theorem allocStep_measure {busy : List (ℚ × ℚ)} {wE : ℚ} {wbm brk : ℤ} {nm : String}
    {remaining : ℤ} {cursor : ℚ} {sched : List Block}
    {r' : ℤ} {c' : ℚ} {s' : List Block}
    (h : allocStep busy wE wbm brk nm remaining cursor sched = .next r' c' s') :
    r'.toNat < remaining.toNat ∨
      (r' = remaining ∧
        busyAfter busy c' + (⌈wE - c'⌉).toNat < busyAfter busy cursor + (⌈wE - cursor⌉).toNat) := by
  rcases allocStep_next_inv h with ⟨hrem, hcur, hmain⟩
  rcases hmain with ⟨hbl, _, hr', _⟩ | ⟨hr', _, hconf⟩
  · left
    omega
  · right
    refine ⟨hr', ?_⟩
    rcases hconf with ⟨bb, hbb, _, hb2, hb3⟩ | ⟨_, hc5⟩
    · have hlt : busyAfter busy c' < busyAfter busy cursor :=
        busyAfter_lt hbb hb2 (le_of_eq hb3.symm)
      have hceil : (⌈wE - c'⌉).toNat ≤ (⌈wE - cursor⌉).toNat := by
        have hc : cursor ≤ c' := le_of_lt (hb3 ▸ hb2)
        have : ⌈wE - c'⌉ ≤ ⌈wE - cursor⌉ := Int.ceil_mono (by linarith)
        omega
      omega
    · subst hc5
      have h5 : busyAfter busy (cursor + 5) ≤ busyAfter busy cursor :=
        busyAfter_mono (by linarith)
      have hceq : ⌈wE - (cursor + 5)⌉ = ⌈wE - cursor⌉ - 5 := by
        have heq : wE - (cursor + 5) = (wE - cursor) - ((5 : ℤ) : ℚ) := by push_cast; ring
        rw [heq, Int.ceil_sub_int]
      have hpos : 0 < ⌈wE - cursor⌉ := Int.ceil_pos.mpr (by linarith)
      omega

/-- With a nonnegative break length the scalar measure
`remaining.toNat + busyAfter + ⌈window end - cursor⌉` strictly decreases on
every continuing iteration. -/
theorem allocStep_mu {busy : List (ℚ × ℚ)} {wE : ℚ} {wbm brk : ℤ} {nm : String}
    {remaining : ℤ} {cursor : ℚ} {sched : List Block}
    {r' : ℤ} {c' : ℚ} {s' : List Block} (hbrk : 0 ≤ brk)
    (h : allocStep busy wE wbm brk nm remaining cursor sched = .next r' c' s') :
    r'.toNat + busyAfter busy c' + (⌈wE - c'⌉).toNat <
      remaining.toNat + busyAfter busy cursor + (⌈wE - cursor⌉).toNat := by
  rcases allocStep_next_inv h with ⟨hrem, hcur, hinv⟩
  rcases hinv with ⟨hbl, _, hr', hbranch⟩ | ⟨hr', _, hconf⟩
  · obtain ⟨_, hblrem, _⟩ := blockLen_bounds hbl
    have hblq : (0 : ℚ) < (blockLen wbm remaining (wE - cursor) : ℚ) := by exact_mod_cast hbl
    have hbrkq : (0 : ℚ) ≤ (brk : ℚ) := by exact_mod_cast hbrk
    have hcc : cursor ≤ c' := by
      rcases hbranch with ⟨_, _, hc', _⟩ | ⟨_, hc', _⟩ <;> rw [hc'] <;> linarith
    have hb : busyAfter busy c' ≤ busyAfter busy cursor := busyAfter_mono hcc
    have hceil : (⌈wE - c'⌉).toNat ≤ (⌈wE - cursor⌉).toNat := by
      have : ⌈wE - c'⌉ ≤ ⌈wE - cursor⌉ := Int.ceil_mono (by linarith)
      omega
    omega
  · rcases hconf with ⟨bb, hbb, _, hb2, hb3⟩ | ⟨_, hc5⟩
    · have hlt : busyAfter busy c' < busyAfter busy cursor :=
        busyAfter_lt hbb hb2 (le_of_eq hb3.symm)
      have hceil : (⌈wE - c'⌉).toNat ≤ (⌈wE - cursor⌉).toNat := by
        have hc : cursor ≤ c' := le_of_lt (hb3 ▸ hb2)
        have : ⌈wE - c'⌉ ≤ ⌈wE - cursor⌉ := Int.ceil_mono (by linarith)
        omega
      omega
    · subst hc5
      have h5 : busyAfter busy (cursor + 5) ≤ busyAfter busy cursor :=
        busyAfter_mono (by linarith)
      have hceq : ⌈wE - (cursor + 5)⌉ = ⌈wE - cursor⌉ - 5 := by
        have heq : wE - (cursor + 5) = (wE - cursor) - ((5 : ℤ) : ℚ) := by push_cast; ring
        rw [heq, Int.ceil_sub_int]
      have hpos : 0 < ⌈wE - cursor⌉ := Int.ceil_pos.mpr (by linarith)
      omega

/-- The `while remaining > 0 and current_time < window_end` loop.  Returns the
final schedule, cursor, and whether one of the early `return schedule`
statements fired (which aborts the whole build). -/
def allocLoop (busy : List (ℚ × ℚ)) (wE : ℚ) (wbm brk : ℤ) (nm : String)
    (remaining : ℤ) (cursor : ℚ) (sched : List Block) : List Block × ℚ × Bool :=
  match _h : allocStep busy wE wbm brk nm remaining cursor sched with
  | .stop ab => (sched, cursor, ab)
  | .next r' c' s' => allocLoop busy wE wbm brk nm r' c' s'
termination_by (remaining.toNat, busyAfter busy cursor + (⌈wE - cursor⌉).toNat)
decreasing_by
  rcases allocStep_measure _h with h1 | ⟨h1, h2⟩
  · exact Prod.Lex.left _ _ h1
  · rw [h1]
    exact Prod.Lex.right _ h2

theorem allocLoop_next {busy : List (ℚ × ℚ)} {wE : ℚ} {wbm brk : ℤ} {nm : String}
    {remaining : ℤ} {cursor : ℚ} {sched : List Block}
    {r' : ℤ} {c' : ℚ} {s' : List Block}
    (h : allocStep busy wE wbm brk nm remaining cursor sched = .next r' c' s') :
    allocLoop busy wE wbm brk nm remaining cursor sched =
      allocLoop busy wE wbm brk nm r' c' s' := by
  rw [allocLoop.eq_def]
  split
  · rename_i heq; rw [h] at heq; cases heq
  · rename_i r2 c2 s2 heq; rw [h] at heq; cases heq; rfl

theorem allocLoop_stop {busy : List (ℚ × ℚ)} {wE : ℚ} {wbm brk : ℤ} {nm : String}
    {remaining : ℤ} {cursor : ℚ} {sched : List Block} {ab : Bool}
    (h : allocStep busy wE wbm brk nm remaining cursor sched = .stop ab) :
    allocLoop busy wE wbm brk nm remaining cursor sched = (sched, cursor, ab) := by
  rw [allocLoop.eq_def]
  split
  · rename_i heq; rw [h] at heq; cases heq; rfl
  · rename_i r2 c2 s2 heq; rw [h] at heq; cases heq

/-- Total minutes of the blocks of a schedule carrying a given label. -/
def duraSum (nm : String) (s : List Block) : ℚ :=
  ((s.filter (fun b => decide (b.2.2 = nm))).map (fun b => b.2.1 - b.1)).sum

theorem duraSum_nil (nm : String) : duraSum nm [] = 0 := rfl

theorem duraSum_append (nm : String) (a b : List Block) :
    duraSum nm (a ++ b) = duraSum nm a + duraSum nm b := by
  simp [duraSum, List.filter_append]

theorem duraSum_eq_zero {nm : String} {s : List Block}
    (h : ∀ b ∈ s, b.2.2 ≠ nm) : duraSum nm s = 0 := by
  unfold duraSum
  rw [List.filter_eq_nil_iff.mpr]
  · rfl
  · intro b hb
    simpa using h b hb

/-- Main invariant of the allocation loop: the cursor only moves forward, the
loop only appends blocks, every appended block lies between the entry cursor
and the exit cursor (and inside the window), carries the task's name or
"Break", work blocks avoid the busy intervals, appended blocks are chained in
time order, and the task's name never receives more minutes than `remaining`. -/
theorem allocLoop_spec {busy : List (ℚ × ℚ)} {wE : ℚ} {wbm brk : ℤ} {nm : String}
    (hbrk : 0 ≤ brk) :
    ∀ (remaining : ℤ) (cursor : ℚ) (sched : List Block) {s' : List Block} {c' : ℚ} {ab : Bool},
      allocLoop busy wE wbm brk nm remaining cursor sched = (s', c', ab) →
      cursor ≤ c' ∧
        ∃ new, s' = sched ++ new ∧
          (∀ b ∈ new,
            cursor ≤ b.1 ∧ b.1 ≤ b.2.1 ∧ b.2.1 ≤ c' ∧ b.2.1 ≤ wE ∧
              (b.2.2 = nm ∨ b.2.2 = "Break") ∧
              (b.2.2 ≠ "Break" → is_free_time b.1 b.2.1 busy)) ∧
          new.Pairwise (fun x y => x.2.1 ≤ y.1) ∧
          (nm ≠ "Break" → duraSum nm new ≤ max (remaining : ℚ) 0) := by
  suffices hgen : ∀ (n : ℕ) (remaining : ℤ) (cursor : ℚ) (sched : List Block)
      {s' : List Block} {c' : ℚ} {ab : Bool},
      remaining.toNat + busyAfter busy cursor + (⌈wE - cursor⌉).toNat ≤ n →
      allocLoop busy wE wbm brk nm remaining cursor sched = (s', c', ab) →
      cursor ≤ c' ∧
        ∃ new, s' = sched ++ new ∧
          (∀ b ∈ new,
            cursor ≤ b.1 ∧ b.1 ≤ b.2.1 ∧ b.2.1 ≤ c' ∧ b.2.1 ≤ wE ∧
              (b.2.2 = nm ∨ b.2.2 = "Break") ∧
              (b.2.2 ≠ "Break" → is_free_time b.1 b.2.1 busy)) ∧
          new.Pairwise (fun x y => x.2.1 ≤ y.1) ∧
          (nm ≠ "Break" → duraSum nm new ≤ max (remaining : ℚ) 0) by
    intro remaining cursor sched s' c' ab h
    exact hgen _ remaining cursor sched (le_refl _) h
  intro n
  induction n using Nat.strong_induction_on with
  | _ n IHn =>
    intro remaining cursor sched s' c' ab hn h
    cases hstep : allocStep busy wE wbm brk nm remaining cursor sched with
    | stop ab0 =>
      rw [allocLoop_stop hstep] at h
      cases h
      refine ⟨le_refl _, [], by simp, by simp, by simp, ?_⟩
      intro _
      rw [duraSum_nil]
      exact le_max_right _ _
    | next r1 c1 s1 =>
      rw [allocLoop_next hstep] at h
      have hmu := allocStep_mu hbrk hstep
      obtain ⟨hc1c, new1, hs1, hnew1, hpw1, hcap1⟩ :=
        IHn (r1.toNat + busyAfter busy c1 + (⌈wE - c1⌉).toNat) (by omega) r1 c1 s1
          (le_refl _) h
      obtain ⟨hrem, hcur, hinv⟩ := allocStep_next_inv hstep
      rcases hinv with ⟨hbl, hfree, hr1, hbranch⟩ | ⟨hr1, hs1eq, hconf⟩
      · -- a work block (and possibly a break) was committed
        obtain ⟨hwbm, hblrem, hblwin⟩ := blockLen_bounds hbl
        set bl := blockLen wbm remaining (wE - cursor) with hbldef
        have hblq : (0 : ℚ) < (bl : ℚ) := by exact_mod_cast hbl
        have hbrkq : (0 : ℚ) ≤ (brk : ℚ) := by exact_mod_cast hbrk
        have hwle : cursor + (bl : ℚ) ≤ wE := by linarith
        rcases hbranch with ⟨hrpos, hwin, hc1, hsched1⟩ | ⟨hnobrk, hc1, hsched1⟩
        · -- break inserted
          have hcc1 : cursor ≤ c1 := by rw [hc1]; linarith
          refine ⟨le_trans hcc1 hc1c, (cursor, cursor + (bl : ℚ), nm) ::
            (cursor + (bl : ℚ), cursor + (bl : ℚ) + (brk : ℚ), "Break") :: new1, ?_, ?_, ?_, ?_⟩
          · rw [hs1, hsched1]; simp
          · intro b hb
            have hwc1 : cursor + (bl : ℚ) ≤ c1 := by rw [hc1]; linarith
            rcases List.mem_cons.mp hb with rfl | hb
            · dsimp only
              exact ⟨le_refl _, by linarith, le_trans hwc1 hc1c, hwle, Or.inl rfl,
                fun _ => hfree⟩
            rcases List.mem_cons.mp hb with rfl | hb
            · dsimp only
              refine ⟨by linarith, by linarith, ?_, by linarith, Or.inr rfl, ?_⟩
              · rw [← hc1]; exact hc1c
              · intro hcon; exact absurd rfl hcon
            · obtain ⟨hb1, hb2, hb3, hb4, hb5, hb6⟩ := hnew1 b hb
              exact ⟨le_trans hcc1 hb1, hb2, hb3, hb4, hb5, hb6⟩
          · refine List.Pairwise.cons ?_ (List.Pairwise.cons ?_ hpw1)
            · intro y hy
              rcases List.mem_cons.mp hy with rfl | hy
              · dsimp only; exact le_refl _
              · obtain ⟨hy1, _, _, _, _, _⟩ := hnew1 y hy
                dsimp only
                rw [hc1] at hy1
                linarith
            · intro y hy
              obtain ⟨hy1, _, _, _, _, _⟩ := hnew1 y hy
              dsimp only
              rw [hc1] at hy1
              linarith
          · intro hne
            have hcap := hcap1 hne
            have hr1nonneg : (0 : ℤ) ≤ r1 := le_of_lt hrpos
            have hmax1 : max (r1 : ℚ) 0 = (r1 : ℚ) := max_eq_left (by exact_mod_cast hr1nonneg)
            have hmax0 : max (remaining : ℚ) 0 = (remaining : ℚ) :=
              max_eq_left (by exact_mod_cast le_of_lt hrem)
            rw [hmax1] at hcap
            rw [hmax0]
            have h2 : ¬ ("Break" = nm) := fun hh => hne hh.symm
            have hhead : duraSum nm [(cursor, cursor + (bl : ℚ), nm),
                (cursor + (bl : ℚ), cursor + (bl : ℚ) + (brk : ℚ), "Break")] = (bl : ℚ) := by
              simp [duraSum, h2]
            have hsplit := duraSum_append nm [(cursor, cursor + (bl : ℚ), nm),
              (cursor + (bl : ℚ), cursor + (bl : ℚ) + (brk : ℚ), "Break")] new1
            rw [hhead] at hsplit
            have hsum : duraSum nm ((cursor, cursor + (bl : ℚ), nm) ::
                (cursor + (bl : ℚ), cursor + (bl : ℚ) + (brk : ℚ), "Break") :: new1) =
                (bl : ℚ) + duraSum nm new1 := hsplit
            rw [hsum]
            have : (r1 : ℚ) = (remaining : ℚ) - (bl : ℚ) := by rw [hr1]; push_cast; ring
            linarith
        · -- no break after the committed block
          have hcc1 : cursor ≤ c1 := by rw [hc1]; linarith
          refine ⟨le_trans hcc1 hc1c, (cursor, cursor + (bl : ℚ), nm) :: new1, ?_, ?_, ?_, ?_⟩
          · rw [hs1, hsched1]; simp
          · intro b hb
            rcases List.mem_cons.mp hb with rfl | hb
            · dsimp only
              refine ⟨le_refl _, by linarith, ?_, hwle, Or.inl rfl, fun _ => hfree⟩
              rw [← hc1]
              exact hc1c
            · obtain ⟨hb1, hb2, hb3, hb4, hb5, hb6⟩ := hnew1 b hb
              exact ⟨le_trans hcc1 hb1, hb2, hb3, hb4, hb5, hb6⟩
          · refine List.Pairwise.cons ?_ hpw1
            intro y hy
            obtain ⟨hy1, _, _, _, _, _⟩ := hnew1 y hy
            dsimp only
            rw [hc1] at hy1
            linarith
          · intro hne
            have hcap := hcap1 hne
            have hr1nonneg : (0 : ℤ) ≤ r1 := by rw [hr1]; omega
            have hmax1 : max (r1 : ℚ) 0 = (r1 : ℚ) := max_eq_left (by exact_mod_cast hr1nonneg)
            have hmax0 : max (remaining : ℚ) 0 = (remaining : ℚ) :=
              max_eq_left (by exact_mod_cast le_of_lt hrem)
            rw [hmax1] at hcap
            rw [hmax0]
            have hhead : duraSum nm [(cursor, cursor + (bl : ℚ), nm)] = (bl : ℚ) := by
              simp [duraSum]
            have hsplit := duraSum_append nm [(cursor, cursor + (bl : ℚ), nm)] new1
            rw [hhead] at hsplit
            have hsum : duraSum nm ((cursor, cursor + (bl : ℚ), nm) :: new1) =
                (bl : ℚ) + duraSum nm new1 := hsplit
            rw [hsum]
            have : (r1 : ℚ) = (remaining : ℚ) - (bl : ℚ) := by rw [hr1]; push_cast; ring
            linarith
      · -- conflict: the cursor advanced, nothing appended
        have hcc1 : cursor ≤ c1 := by
          rcases hconf with ⟨bb, _, _, hb2, hb3⟩ | ⟨_, hc5⟩
          · rw [hb3]; exact le_of_lt hb2
          · rw [hc5]; linarith
        subst hs1eq
        refine ⟨le_trans hcc1 hc1c, new1, hs1, ?_, hpw1, ?_⟩
        · intro b hb
          obtain ⟨hb1, hb2, hb3, hb4, hb5, hb6⟩ := hnew1 b hb
          exact ⟨le_trans hcc1 hb1, hb2, hb3, hb4, hb5, hb6⟩
        · intro hne
          rw [hr1] at hcap1
          exact hcap1 hne

/-- The `for task in tasks_sorted` loop: each task is drained by `allocLoop`;
an early `return schedule` (flag `true`) aborts the remaining tasks. -/
def outerLoop (busy : List (ℚ × ℚ)) (wE : ℚ) (wbm brk : ℤ) :
    List Task → ℚ → List Block → List Block × ℚ × Bool
  | [], c, s => (s, c, false)
  | t :: ts, c, s =>
    match allocLoop busy wE wbm brk t.name t.duration_min c s with
    | (s', c', true) => (s', c', true)
    | (s', c', false) => outerLoop busy wE wbm brk ts c' s'

/-- Invariant of the outer loop over the sorted task list: the cursor moves
forward, blocks are only appended, each appended block lies between the entry
cursor and the exit cursor (and inside the window), is labelled with the name
of one of the processed tasks or "Break", avoids the busy intervals unless it
is a break, and the appended blocks are chained in time order. -/
theorem outerLoop_spec {busy : List (ℚ × ℚ)} {wE : ℚ} {wbm brk : ℤ} (hbrk : 0 ≤ brk) :
    ∀ (l : List Task) (c : ℚ) (s : List Block) {s' : List Block} {c' : ℚ} {ab : Bool},
      outerLoop busy wE wbm brk l c s = (s', c', ab) →
      c ≤ c' ∧
        ∃ new, s' = s ++ new ∧
          (∀ b ∈ new,
            c ≤ b.1 ∧ b.1 ≤ b.2.1 ∧ b.2.1 ≤ c' ∧ b.2.1 ≤ wE ∧
              ((∃ t ∈ l, b.2.2 = t.name) ∨ b.2.2 = "Break") ∧
              (b.2.2 ≠ "Break" → is_free_time b.1 b.2.1 busy)) ∧
          new.Pairwise (fun x y => x.2.1 ≤ y.1) := by
  intro l
  induction l with
  | nil =>
    intro c s s' c' ab h
    simp only [outerLoop] at h
    cases h
    exact ⟨le_refl _, [], by simp, by simp, by simp⟩
  | cons t ts ih =>
    intro c s s' c' ab h
    simp only [outerLoop] at h
    rcases hA : allocLoop busy wE wbm brk t.name t.duration_min c s with ⟨s1, c1, ab1⟩
    rw [hA] at h
    obtain ⟨hcc1, new1, hs1, hnew1, hpw1⟩ := allocLoop_spec hbrk t.duration_min c s hA
    cases ab1 with
    | true =>
      cases h
      refine ⟨hcc1, new1, hs1, ?_, hpw1.1⟩
      intro b hb
      obtain ⟨hb1, hb2, hb3, hb4, hb5, hb6⟩ := hnew1 b hb
      refine ⟨hb1, hb2, hb3, hb4, ?_, hb6⟩
      rcases hb5 with hb5 | hb5
      · exact Or.inl ⟨t, List.mem_cons_self _ _, hb5⟩
      · exact Or.inr hb5
    | false =>
      obtain ⟨hc1c, new2, hs2, hnew2, hpw2⟩ := ih c1 s1 h
      refine ⟨le_trans hcc1 hc1c, new1 ++ new2, by rw [hs2, hs1, List.append_assoc], ?_, ?_⟩
      · intro b hb
        rcases List.mem_append.mp hb with hb | hb
        · obtain ⟨hb1, hb2, hb3, hb4, hb5, hb6⟩ := hnew1 b hb
          refine ⟨hb1, hb2, le_trans hb3 hc1c, hb4, ?_, hb6⟩
          rcases hb5 with hb5 | hb5
          · exact Or.inl ⟨t, List.mem_cons_self _ _, hb5⟩
          · exact Or.inr hb5
        · obtain ⟨hb1, hb2, hb3, hb4, hb5, hb6⟩ := hnew2 b hb
          refine ⟨le_trans hcc1 hb1, hb2, hb3, hb4, ?_, hb6⟩
          rcases hb5 with ⟨t', ht', hb5⟩ | hb5
          · exact Or.inl ⟨t', List.mem_cons_of_mem _ ht', hb5⟩
          · exact Or.inr hb5
      · rw [List.pairwise_append]
        refine ⟨hpw1.1, hpw2, ?_⟩
        intro x hx y hy
        obtain ⟨_, _, hx3, _, _, _⟩ := hnew1 x hx
        obtain ⟨hy1, _, _, _, _, _⟩ := hnew2 y hy
        exact le_trans hx3 hy1

/-- `build_schedule(tasks, start_time, total_minutes, work_block_max,
break_minutes, busy_blocks)` from the source. -/
def build_schedule (tasks : List Task) (start_time : ℚ) (total_minutes : ℤ)
    (work_block_max : ℤ := 50) (break_minutes : ℤ := 10)
    (busy_blocks : List (ℚ × ℚ) := []) : List Block :=
  if total_minutes ≤ 0 ∨ tasks = [] then []
  else
    (outerLoop busy_blocks (start_time + (total_minutes : ℚ)) work_block_max break_minutes
      (tasks.mergeSort taskLe) start_time []).1

/-- Invariants of the full builder: every returned block starts no earlier
than `start_time`, is well formed, ends inside the window, carries a task name
or "Break", non-break blocks avoid the busy intervals, and the blocks are
chained in time order. -/
theorem build_schedule_spec (tasks : List Task) (st : ℚ) (tm wbm brk : ℤ)
    (busy : List (ℚ × ℚ)) (hbrk : 0 ≤ brk) :
    (∀ b ∈ build_schedule tasks st tm wbm brk busy,
      st ≤ b.1 ∧ b.1 ≤ b.2.1 ∧ b.2.1 ≤ st + (tm : ℚ) ∧
        ((∃ t ∈ tasks, b.2.2 = t.name) ∨ b.2.2 = "Break") ∧
        (b.2.2 ≠ "Break" → is_free_time b.1 b.2.1 busy)) ∧
    (build_schedule tasks st tm wbm brk busy).Pairwise (fun x y => x.2.1 ≤ y.1) := by
  unfold build_schedule
  by_cases hc : tm ≤ 0 ∨ tasks = []
  · rw [if_pos hc]
    exact ⟨by simp, by simp⟩
  rw [if_neg hc]
  rcases hO : outerLoop busy (st + (tm : ℚ)) wbm brk (tasks.mergeSort taskLe) st []
    with ⟨s', c', ab⟩
  obtain ⟨hcc, new, hs, hnew, hpw⟩ := outerLoop_spec hbrk _ st [] hO
  dsimp only
  rw [hs, List.nil_append]
  constructor
  · intro b hb
    obtain ⟨hb1, hb2, hb3, hb4, hb5, hb6⟩ := hnew b hb
    refine ⟨hb1, hb2, hb4, ?_, hb6⟩
    rcases hb5 with ⟨t, ht, hb5⟩ | hb5
    · exact Or.inl ⟨t, List.mem_mergeSort.mp ht, hb5⟩
    · exact Or.inr hb5
  · exact hpw

/-- C2: for every well-formed input (positive `work_block_max` and
`break_minutes`, busy intervals with start < end), any two distinct blocks
returned by `build_schedule` have non-intersecting time intervals, and the
blocks appear in non-decreasing start-time order. -/
theorem C2_no_overlap_and_ordered (tasks : List Task) (start_time : ℚ)
    (total_minutes work_block_max break_minutes : ℤ) (busy_blocks : List (ℚ × ℚ))
    (hwbm : 0 < work_block_max) (hbrk : 0 < break_minutes)
    (hbusy : ∀ iv ∈ busy_blocks, iv.1 < iv.2) :
    (build_schedule tasks start_time total_minutes work_block_max break_minutes
        busy_blocks).Pairwise (fun x y => ¬ (x.1 < y.2.1 ∧ y.1 < x.2.1)) ∧
    (build_schedule tasks start_time total_minutes work_block_max break_minutes
        busy_blocks).Pairwise (fun x y => x.1 ≤ y.1) := by
  obtain ⟨helem, hpw⟩ := build_schedule_spec tasks start_time total_minutes
    work_block_max break_minutes busy_blocks (le_of_lt hbrk)
  constructor
  · exact hpw.imp (fun h hint => absurd hint.2 (not_lt.mpr h))
  · refine hpw.imp_of_mem ?_
    intro a b ha hb h
    obtain ⟨_, ha2, _, _, _⟩ := helem a ha
    exact le_trans ha2 h

/-- Witness for C2 at a concrete well-formed input. -/
theorem C2_witness :
    (0 : ℤ) < 50 ∧ (0 : ℤ) < 10 ∧ (∀ iv ∈ ([] : List (ℚ × ℚ)), iv.1 < iv.2) ∧
    ((build_schedule [⟨"A", 30, 1, none⟩] 0 60 50 10 []).Pairwise
        (fun x y => ¬ (x.1 < y.2.1 ∧ y.1 < x.2.1)) ∧
      (build_schedule [⟨"A", 30, 1, none⟩] 0 60 50 10 []).Pairwise
        (fun x y => x.1 ≤ y.1)) :=
  ⟨by decide, by decide, by simp,
    C2_no_overlap_and_ordered [⟨"A", 30, 1, none⟩] 0 60 50 10 []
      (by decide) (by decide) (by simp)⟩

/-- C3: for every well-formed input (with no task using the reserved label
"Break" as its name), no returned block whose label is a task name — i.e. a
work block — intersects any busy interval, where intersection means
`block.start < interval.end` and `block.end > interval.start`. -/
theorem C3_work_blocks_respect_busy (tasks : List Task) (start_time : ℚ)
    (total_minutes work_block_max break_minutes : ℤ) (busy_blocks : List (ℚ × ℚ))
    (hwbm : 0 < work_block_max) (hbrk : 0 < break_minutes)
    (hbusy : ∀ iv ∈ busy_blocks, iv.1 < iv.2)
    (hnb : ∀ t ∈ tasks, t.name ≠ "Break") :
    ∀ b ∈ build_schedule tasks start_time total_minutes work_block_max break_minutes
        busy_blocks,
      (∃ t ∈ tasks, b.2.2 = t.name) →
      ∀ iv ∈ busy_blocks, ¬ (b.1 < iv.2 ∧ b.2.1 > iv.1) := by
  obtain ⟨helem, _⟩ := build_schedule_spec tasks start_time total_minutes
    work_block_max break_minutes busy_blocks (le_of_lt hbrk)
  intro b hb hwork
  obtain ⟨_, _, _, _, hfree⟩ := helem b hb
  obtain ⟨t, ht, hname⟩ := hwork
  have : b.2.2 ≠ "Break" := by rw [hname]; exact hnb t ht
  exact hfree this

/-- Witness for C3 at a concrete well-formed input. -/
theorem C3_witness :
    (0 : ℤ) < 50 ∧ (0 : ℤ) < 10 ∧ (∀ iv ∈ ([] : List (ℚ × ℚ)), iv.1 < iv.2) ∧
    (∀ t ∈ [(⟨"A", 30, 1, none⟩ : Task)], t.name ≠ "Break") ∧
    (∀ b ∈ build_schedule [⟨"A", 30, 1, none⟩] 0 60 50 10 [],
      (∃ t ∈ [(⟨"A", 30, 1, none⟩ : Task)], b.2.2 = t.name) →
      ∀ iv ∈ ([] : List (ℚ × ℚ)), ¬ (b.1 < iv.2 ∧ b.2.1 > iv.1)) :=
  ⟨by decide, by decide, by simp, by simp,
    C3_work_blocks_respect_busy [⟨"A", 30, 1, none⟩] 0 60 50 10 []
      (by decide) (by decide) (by simp) (by simp)⟩

/-- C4: for every well-formed input, every block returned by `build_schedule`
ends no later than `start_time + total_minutes` and starts no earlier than
`start_time`. -/
theorem C4_window_bounds (tasks : List Task) (start_time : ℚ)
    (total_minutes work_block_max break_minutes : ℤ) (busy_blocks : List (ℚ × ℚ))
    (hwbm : 0 < work_block_max) (hbrk : 0 < break_minutes)
    (hbusy : ∀ iv ∈ busy_blocks, iv.1 < iv.2) :
    ∀ b ∈ build_schedule tasks start_time total_minutes work_block_max break_minutes
        busy_blocks,
      start_time ≤ b.1 ∧ b.2.1 ≤ start_time + (total_minutes : ℚ) := by
  obtain ⟨helem, _⟩ := build_schedule_spec tasks start_time total_minutes
    work_block_max break_minutes busy_blocks (le_of_lt hbrk)
  intro b hb
  obtain ⟨hb1, _, hb3, _, _⟩ := helem b hb
  exact ⟨hb1, hb3⟩

/-- Witness for C4 at a concrete well-formed input. -/
theorem C4_witness :
    (0 : ℤ) < 50 ∧ (0 : ℤ) < 10 ∧ (∀ iv ∈ ([] : List (ℚ × ℚ)), iv.1 < iv.2) ∧
    (∀ b ∈ build_schedule [⟨"A", 30, 1, none⟩] 0 60 50 10 [],
      (0 : ℚ) ≤ b.1 ∧ b.2.1 ≤ 0 + ((60 : ℤ) : ℚ)) :=
  ⟨by decide, by decide, by simp,
    C4_window_bounds [⟨"A", 30, 1, none⟩] 0 60 50 10 []
      (by decide) (by decide) (by simp)⟩

/-- C9: for every `start_time`, `work_block_max`, `break_minutes` and
`busy_blocks`, `build_schedule` returns the empty list whenever the task list
is empty or `total_minutes ≤ 0`. -/
theorem C9_degenerate_inputs (tasks : List Task) (start_time : ℚ)
    (total_minutes work_block_max break_minutes : ℤ) (busy_blocks : List (ℚ × ℚ))
    (h : tasks = [] ∨ total_minutes ≤ 0) :
    build_schedule tasks start_time total_minutes work_block_max break_minutes
      busy_blocks = [] := by
  unfold build_schedule
  rcases h with h | h
  · rw [if_pos (Or.inr h)]
  · rw [if_pos (Or.inl h)]

/-- Witness for C9 at concrete inputs exercising both degenerate conditions. -/
theorem C9_witness :
    (([] : List Task) = [] ∨ (180 : ℤ) ≤ 0) ∧
    build_schedule [] 1080 180 50 10 [] = [] ∧
    ((([(⟨"A", 30, 1, none⟩ : Task)]) = [] ∨ (0 : ℤ) ≤ 0)) ∧
    build_schedule [⟨"A", 30, 1, none⟩] 1080 0 50 10 [] = [] :=
  ⟨Or.inl rfl, C9_degenerate_inputs [] 1080 180 50 10 [] (Or.inl rfl),
    Or.inr (by decide), C9_degenerate_inputs [⟨"A", 30, 1, none⟩] 1080 0 50 10 []
      (Or.inr (by decide))⟩

/-- C6: `build_schedule` terminates on every well-formed input: each iteration
of the allocation loop either commits a block (advancing the cursor by at
least one minute), returns, or strictly advances the cursor on a conflict —
jumping to the end of a busy interval covering the cursor (whose end is
strictly beyond the cursor), or otherwise advancing by a fixed 5 minutes — so
the cursor is strictly increasing, the loop only runs while it is below the
window end, and a lexicographic measure decreases on every continuing
iteration. -/
theorem C6_loop_progress (busy : List (ℚ × ℚ)) (wE : ℚ) (wbm brk : ℤ) (nm : String)
    (remaining : ℤ) (cursor : ℚ) (sched : List Block)
    (r' : ℤ) (c' : ℚ) (s' : List Block) (hbrk : 0 ≤ brk)
    (h : allocStep busy wE wbm brk nm remaining cursor sched = .next r' c' s') :
    cursor < wE ∧ cursor < c' ∧
      (s' ≠ sched → r' < remaining ∧ cursor + 1 ≤ c') ∧
      (s' = sched → r' = remaining ∧
        ((∃ iv ∈ busy, iv.1 ≤ cursor ∧ cursor < iv.2 ∧ c' = iv.2) ∨ c' = cursor + 5)) ∧
      r'.toNat + busyAfter busy c' + (⌈wE - c'⌉).toNat <
        remaining.toNat + busyAfter busy cursor + (⌈wE - cursor⌉).toNat := by
  have hmu := allocStep_mu hbrk h
  rcases allocStep_next_inv h with ⟨hrem, hcur, hinv⟩
  rcases hinv with ⟨hbl, _, hr', hbranch⟩ | ⟨hr', hs', hconf⟩
  · -- a block was committed
    have hblq : (0 : ℚ) < (blockLen wbm remaining (wE - cursor) : ℚ) := by exact_mod_cast hbl
    have hblq1 : (1 : ℚ) ≤ (blockLen wbm remaining (wE - cursor) : ℚ) := by
      exact_mod_cast hbl
    have hbrkq : (0 : ℚ) ≤ (brk : ℚ) := by exact_mod_cast hbrk
    have hstep : cursor + 1 ≤ c' := by
      rcases hbranch with ⟨_, _, hc', _⟩ | ⟨_, hc', _⟩ <;> rw [hc'] <;> linarith
    have hne : s' ≠ sched := by
      rcases hbranch with ⟨_, _, _, hss⟩ | ⟨_, _, hss⟩ <;> rw [hss] <;>
        intro hcon <;> exact absurd (congrArg List.length hcon) (by simp)
    refine ⟨hcur, by linarith, fun _ => ⟨by omega, hstep⟩, fun hcon => absurd hcon hne, hmu⟩
  · -- conflict skipping
    have hcc' : cursor < c' := by
      rcases hconf with ⟨iv, _, _, hiv2, hiv3⟩ | ⟨_, hc5⟩
      · rw [hiv3]; exact hiv2
      · rw [hc5]; linarith
    refine ⟨hcur, hcc', fun hne => absurd hs' hne, fun _ => ⟨hr', ?_⟩, hmu⟩
    rcases hconf with hcov | ⟨_, hc5⟩
    · exact Or.inl hcov
    · exact Or.inr hc5

/-- Witness for C6: one concrete continuing iteration (a committed block with
a break appended). -/
theorem C6_witness :
    (0 : ℤ) ≤ 10 ∧
    allocStep [] 100 50 10 "T" 60 0 [] =
      .next 10 60 [((0 : ℚ), (50 : ℚ), "T"), ((50 : ℚ), (60 : ℚ), "Break")] ∧
    ((0 : ℚ) < 100 ∧ (0 : ℚ) < 60 ∧
      ([((0 : ℚ), (50 : ℚ), "T"), ((50 : ℚ), (60 : ℚ), "Break")] ≠ ([] : List Block) →
        (10 : ℤ) < 60 ∧ (0 : ℚ) + 1 ≤ 60) ∧
      (([((0 : ℚ), (50 : ℚ), "T"), ((50 : ℚ), (60 : ℚ), "Break")] = ([] : List Block)) →
        (10 : ℤ) = 60 ∧
        ((∃ iv ∈ ([] : List (ℚ × ℚ)), iv.1 ≤ 0 ∧ (0 : ℚ) < iv.2 ∧ (60 : ℚ) = iv.2) ∨
          (60 : ℚ) = 0 + 5)) ∧
      (10 : ℤ).toNat + busyAfter [] 60 + (⌈(100 : ℚ) - 60⌉).toNat <
        (60 : ℤ).toNat + busyAfter [] 0 + (⌈(100 : ℚ) - 0⌉).toNat) := by
  have hstep : allocStep [] 100 50 10 "T" 60 0 [] =
      .next 10 60 [((0 : ℚ), (50 : ℚ), "T"), ((50 : ℚ), (60 : ℚ), "Break")] := by
    norm_num [allocStep, blockLen, pyInt, is_free_time]
  exact ⟨by decide, hstep,
    C6_loop_progress [] 100 50 10 "T" 60 0 [] 10 60 _ (by decide) hstep⟩

/-- C7 (amended): whenever a continuing iteration changes the schedule, it
commits exactly one work block starting at the cursor, and appends a break
block immediately after it if and only if the task's remaining duration after
that block is still positive and the remaining window from the block's end
strictly exceeds `break_minutes`; every appended break block has length
exactly `break_minutes` and label "Break".  (The claim's corollary that no
break follows a task's final block is refuted by `C7_counterexample`.) -/
theorem C7_break_insertion_iff (busy : List (ℚ × ℚ)) (wE : ℚ) (wbm brk : ℤ) (nm : String)
    (remaining : ℤ) (cursor : ℚ) (sched : List Block)
    (r' : ℤ) (c' : ℚ) (s' : List Block)
    (h : allocStep busy wE wbm brk nm remaining cursor sched = .next r' c' s')
    (hne : s' ≠ sched) :
    ∃ wEnd : ℚ, cursor < wEnd ∧
      s' = sched ++ [(cursor, wEnd, nm)] ++
        (if 0 < r' ∧ wE - wEnd > (brk : ℚ) then [(wEnd, wEnd + (brk : ℚ), "Break")] else []) ∧
      c' = if 0 < r' ∧ wE - wEnd > (brk : ℚ) then wEnd + (brk : ℚ) else wEnd := by
  rcases allocStep_next_inv h with ⟨hrem, hcur, hinv⟩
  rcases hinv with ⟨hbl, _, hr', hbranch⟩ | ⟨_, hs', _⟩
  · have hblq : (0 : ℚ) < (blockLen wbm remaining (wE - cursor) : ℚ) := by exact_mod_cast hbl
    refine ⟨cursor + (blockLen wbm remaining (wE - cursor) : ℚ), by linarith, ?_⟩
    rcases hbranch with ⟨hrpos, hwin, hc', hss⟩ | ⟨hnob, hc', hss⟩
    · rw [if_pos ⟨hrpos, hwin⟩, if_pos ⟨hrpos, hwin⟩, hss, hc']
      exact ⟨by simp, rfl⟩
    · rw [if_neg hnob, if_neg hnob, hss, hc']
      exact ⟨by simp, rfl⟩
  · exact absurd hs' hne

/-- Witness for C7's amended theorem: a concrete committing iteration in which
the break condition holds. -/
theorem C7_witness :
    allocStep [] 100 50 10 "T" 60 0 [] =
      .next 10 60 [((0 : ℚ), (50 : ℚ), "T"), ((50 : ℚ), (60 : ℚ), "Break")] ∧
    [((0 : ℚ), (50 : ℚ), "T"), ((50 : ℚ), (60 : ℚ), "Break")] ≠ ([] : List Block) ∧
    (∃ wEnd : ℚ, (0 : ℚ) < wEnd ∧
      [((0 : ℚ), (50 : ℚ), "T"), ((50 : ℚ), (60 : ℚ), "Break")] =
        [] ++ [((0 : ℚ), wEnd, "T")] ++
          (if 0 < (10 : ℤ) ∧ (100 : ℚ) - wEnd > ((10 : ℤ) : ℚ) then
            [(wEnd, wEnd + ((10 : ℤ) : ℚ), "Break")] else []) ∧
      (60 : ℚ) = if 0 < (10 : ℤ) ∧ (100 : ℚ) - wEnd > ((10 : ℤ) : ℚ) then
        wEnd + ((10 : ℤ) : ℚ) else wEnd) := by
  have hstep : allocStep [] 100 50 10 "T" 60 0 [] =
      .next 10 60 [((0 : ℚ), (50 : ℚ), "T"), ((50 : ℚ), (60 : ℚ), "Break")] := by
    norm_num [allocStep, blockLen, pyInt, is_free_time]
  exact ⟨hstep, by simp,
    C7_break_insertion_iff [] 100 50 10 "T" 60 0 [] 10 60 _ hstep (by simp)⟩

/-- Evaluation of the run refuting C7's final-block corollary: one task of 60
minutes, window of 100 minutes starting at 0, rest of the window busy from
minute 60 on.  The work block `[0, 50)` is committed, a break `[50, 60)` is
appended (remaining 10 > 0 and window 50 > 10), and then the busy interval
swallows the rest of the window, so the break is the task's last block. -/
theorem scenarioC7_eval :
    build_schedule [⟨"T", 60, 1, none⟩] 0 100 50 10 [((60 : ℚ), (100 : ℚ))] =
      [((0 : ℚ), (50 : ℚ), "T"), ((50 : ℚ), (60 : ℚ), "Break")] := by
  have h1 : allocStep [((60 : ℚ), (100 : ℚ))] 100 50 10 "T" 60 0 [] =
      .next 10 60 [((0 : ℚ), (50 : ℚ), "T"), ((50 : ℚ), (60 : ℚ), "Break")] := by
    norm_num [allocStep, blockLen, pyInt, is_free_time]
  have h2 : allocStep [((60 : ℚ), (100 : ℚ))] 100 50 10 "T" 10 60
      [((0 : ℚ), (50 : ℚ), "T"), ((50 : ℚ), (60 : ℚ), "Break")] =
      .next 10 100 [((0 : ℚ), (50 : ℚ), "T"), ((50 : ℚ), (60 : ℚ), "Break")] := by
    norm_num [allocStep, blockLen, pyInt, is_free_time, firstCoveringEnd]
  have h3 : allocStep [((60 : ℚ), (100 : ℚ))] 100 50 10 "T" 10 100
      [((0 : ℚ), (50 : ℚ), "T"), ((50 : ℚ), (60 : ℚ), "Break")] = .stop false := by
    norm_num [allocStep]
  have hloop : allocLoop [((60 : ℚ), (100 : ℚ))] 100 50 10 "T" 60 0 [] =
      ([((0 : ℚ), (50 : ℚ), "T"), ((50 : ℚ), (60 : ℚ), "Break")], 100, false) := by
    rw [allocLoop_next h1, allocLoop_next h2, allocLoop_stop h3]
  have hmerge : ([⟨"T", 60, 1, none⟩] : List Task).mergeSort taskLe =
      [⟨"T", 60, 1, none⟩] := by
    simp [List.mergeSort]
  unfold build_schedule
  rw [if_neg (by norm_num), hmerge]
  have hwe : (0 : ℚ) + ((100 : ℤ) : ℚ) = 100 := by norm_num
  rw [hwe]
  simp only [outerLoop, hloop]

/-- C7 counterexample: on this input the last block of the schedule is a
break that immediately follows the task's final committed work block, so
"no break follows a task's final block" fails on the code. -/
theorem C7_counterexample :
    build_schedule [⟨"T", 60, 1, none⟩] 0 100 50 10 [((60 : ℚ), (100 : ℚ))] =
      [((0 : ℚ), (50 : ℚ), "T"), ((50 : ℚ), (60 : ℚ), "Break")] ∧
    (build_schedule [⟨"T", 60, 1, none⟩] 0 100 50 10 [((60 : ℚ), (100 : ℚ))]).getLast? =
      some ((50 : ℚ), (60 : ℚ), "Break") := by
  refine ⟨scenarioC7_eval, ?_⟩
  rw [scenarioC7_eval]
  rfl

/-- Tasks whose names all differ from `nm` (with `nm` not the break label)
contribute nothing to the minutes labelled `nm`. -/
theorem outerLoop_duraSum_other {busy : List (ℚ × ℚ)} {wE : ℚ} {wbm brk : ℤ}
    (hbrk : 0 ≤ brk) {nm : String} (hnm : nm ≠ "Break") :
    ∀ (l : List Task) (c : ℚ) (s : List Block) {s' : List Block} {c' : ℚ} {ab : Bool},
      (∀ t ∈ l, t.name ≠ nm) →
      outerLoop busy wE wbm brk l c s = (s', c', ab) →
      duraSum nm s' = duraSum nm s := by
  intro l
  induction l with
  | nil =>
    intro c s s' c' ab _ h
    simp only [outerLoop] at h
    cases h
    rfl
  | cons t ts ih =>
    intro c s s' c' ab hother h
    simp only [outerLoop] at h
    rcases hA : allocLoop busy wE wbm brk t.name t.duration_min c s with ⟨s1, c1, ab1⟩
    rw [hA] at h
    obtain ⟨_, new1, hs1, hnew1, _⟩ := allocLoop_spec hbrk t.duration_min c s hA
    have hz : duraSum nm new1 = 0 := by
      apply duraSum_eq_zero
      intro b hb
      obtain ⟨_, _, _, _, hb5, _⟩ := hnew1 b hb
      rcases hb5 with hb5 | hb5
      · rw [hb5]; exact hother t (List.mem_cons_self _ _)
      · rw [hb5]; exact fun hc => hnm hc.symm
    have hs1sum : duraSum nm s1 = duraSum nm s := by
      rw [hs1, duraSum_append, hz, add_zero]
    cases ab1 with
    | true => cases h; exact hs1sum
    | false =>
      rw [ih c1 s1 (fun t' ht' => hother t' (List.mem_cons_of_mem _ ht')) h]
      exact hs1sum

/-- Along the outer loop, a task with a unique non-"Break" name gains at most
its declared duration in labelled minutes. -/
theorem outerLoop_duraSum_capacity {busy : List (ℚ × ℚ)} {wE : ℚ} {wbm brk : ℤ}
    (hbrk : 0 ≤ brk) {tk : Task} (hnb : tk.name ≠ "Break") :
    ∀ (l : List Task) (c : ℚ) (s : List Block) {s' : List Block} {c' : ℚ} {ab : Bool},
      tk ∈ l → l.Pairwise (fun x y => x.name ≠ y.name) →
      outerLoop busy wE wbm brk l c s = (s', c', ab) →
      duraSum tk.name s' ≤ duraSum tk.name s + max (tk.duration_min : ℚ) 0 := by
  intro l
  induction l with
  | nil => intro c s s' c' ab htk; simp at htk
  | cons t ts ih =>
    intro c s s' c' ab htk hpw h
    simp only [outerLoop] at h
    rcases hA : allocLoop busy wE wbm brk t.name t.duration_min c s with ⟨s1, c1, ab1⟩
    rw [hA] at h
    obtain ⟨_, new1, hs1, hnew1, hrest⟩ := allocLoop_spec hbrk t.duration_min c s hA
    rcases List.mem_cons.mp htk with rfl | htk
    · -- the head task is `tk`
      have hcap : duraSum tk.name new1 ≤ max (tk.duration_min : ℚ) 0 := hrest.2 hnb
      have hs1sum : duraSum tk.name s1 ≤ duraSum tk.name s + max (tk.duration_min : ℚ) 0 := by
        rw [hs1, duraSum_append]
        linarith
      cases ab1 with
      | true => cases h; exact hs1sum
      | false =>
        have hother : ∀ t' ∈ ts, t'.name ≠ tk.name := by
          intro t' ht' hc
          exact (List.pairwise_cons.mp hpw).1 t' ht' hc.symm
        rw [outerLoop_duraSum_other hbrk hnb ts c1 s1 hother h]
        exact hs1sum
    · -- `tk` occurs later; the head task contributes nothing to its name
      have hhead : t.name ≠ tk.name := (List.pairwise_cons.mp hpw).1 tk htk
      have hz : duraSum tk.name new1 = 0 := by
        apply duraSum_eq_zero
        intro b hb
        obtain ⟨_, _, _, _, hb5, _⟩ := hnew1 b hb
        rcases hb5 with hb5 | hb5
        · rw [hb5]; exact hhead
        · rw [hb5]; exact fun hc => hnb hc.symm
      have hs1sum : duraSum tk.name s1 = duraSum tk.name s := by
        rw [hs1, duraSum_append, hz, add_zero]
      cases ab1 with
      | true =>
        cases h
        rw [hs1sum]
        have : (0 : ℚ) ≤ max (tk.duration_min : ℚ) 0 := le_max_right _ _
        linarith
      | false =>
        have := ih c1 s1 htk (List.pairwise_cons.mp hpw).2 h
        rw [hs1sum] at this
        exact this

/-- C5 (amended): for every well-formed input in which task names are pairwise
distinct, no task uses the reserved label "Break" as its name, and durations
are nonnegative, the total minutes of the returned blocks labelled with a
task's name never exceed that task's declared duration. -/
theorem C5_capacity (tasks : List Task) (start_time : ℚ)
    (total_minutes work_block_max break_minutes : ℤ) (busy_blocks : List (ℚ × ℚ))
    (hwbm : 0 < work_block_max) (hbrk : 0 < break_minutes)
    (hbusy : ∀ iv ∈ busy_blocks, iv.1 < iv.2)
    (hnames : tasks.Pairwise (fun x y => x.name ≠ y.name))
    (hnb : ∀ t ∈ tasks, t.name ≠ "Break")
    (tk : Task) (htk : tk ∈ tasks) (hdur : 0 ≤ tk.duration_min) :
    duraSum tk.name (build_schedule tasks start_time total_minutes work_block_max
      break_minutes busy_blocks) ≤ (tk.duration_min : ℚ) := by
  unfold build_schedule
  by_cases hc : total_minutes ≤ 0 ∨ tasks = []
  · rw [if_pos hc, duraSum_nil]
    exact_mod_cast hdur
  rw [if_neg hc]
  rcases hO : outerLoop busy_blocks (start_time + (total_minutes : ℚ)) work_block_max
      break_minutes (tasks.mergeSort taskLe) start_time [] with ⟨s', c', ab⟩
  have hsorted_mem : tk ∈ tasks.mergeSort taskLe := List.mem_mergeSort.mpr htk
  have hsorted_pw : (tasks.mergeSort taskLe).Pairwise (fun x y => x.name ≠ y.name) :=
    ((List.mergeSort_perm tasks taskLe).pairwise_iff (fun h hc => h hc.symm)).mpr hnames
  have := outerLoop_duraSum_capacity (le_of_lt hbrk) (hnb tk htk) _ start_time []
    hsorted_mem hsorted_pw hO
  rw [duraSum_nil, zero_add, max_eq_left (by exact_mod_cast hdur)] at this
  simpa using this

/-- Witness for C5's amended theorem at a concrete well-formed input. -/
theorem C5_witness :
    (0 : ℤ) < 50 ∧ (0 : ℤ) < 10 ∧
    ([(⟨"A", 30, 1, none⟩ : Task)].Pairwise (fun x y => x.name ≠ y.name)) ∧
    (∀ t ∈ [(⟨"A", 30, 1, none⟩ : Task)], t.name ≠ "Break") ∧
    (⟨"A", 30, 1, none⟩ : Task) ∈ [(⟨"A", 30, 1, none⟩ : Task)] ∧
    (0 : ℤ) ≤ (⟨"A", 30, 1, none⟩ : Task).duration_min ∧
    duraSum (⟨"A", 30, 1, none⟩ : Task).name
      (build_schedule [⟨"A", 30, 1, none⟩] 0 60 50 10 []) ≤
      (((⟨"A", 30, 1, none⟩ : Task).duration_min : ℤ) : ℚ) :=
  ⟨by decide, by decide, by simp, by simp, by simp, by decide,
    C5_capacity [⟨"A", 30, 1, none⟩] 0 60 50 10 [] (by decide) (by decide)
      (by simp) (by simp) (by simp) ⟨"A", 30, 1, none⟩ (by simp) (by decide)⟩

/-- Evaluation of the duplicate-name run used to refute C5 as stated: two
distinct tasks both named "A", 30 minutes each; both are scheduled in full. -/
theorem scenarioC5_eval :
    build_schedule [⟨"A", 30, 1, none⟩, ⟨"A", 30, 2, none⟩] 0 200 50 10 [] =
      [((0 : ℚ), (30 : ℚ), "A"), ((30 : ℚ), (60 : ℚ), "A")] := by
  have h1 : allocStep [] 200 50 10 "A" 30 0 [] =
      .next 0 30 [((0 : ℚ), (30 : ℚ), "A")] := by
    norm_num [allocStep, blockLen, pyInt, is_free_time]
  have h2 : allocStep [] 200 50 10 "A" 0 30 [((0 : ℚ), (30 : ℚ), "A")] = .stop false := by
    norm_num [allocStep]
  have h3 : allocStep [] 200 50 10 "A" 30 30 [((0 : ℚ), (30 : ℚ), "A")] =
      .next 0 60 [((0 : ℚ), (30 : ℚ), "A"), ((30 : ℚ), (60 : ℚ), "A")] := by
    norm_num [allocStep, blockLen, pyInt, is_free_time]
  have h4 : allocStep [] 200 50 10 "A" 0 60
      [((0 : ℚ), (30 : ℚ), "A"), ((30 : ℚ), (60 : ℚ), "A")] = .stop false := by
    norm_num [allocStep]
  have hloop1 : allocLoop [] 200 50 10 "A" 30 0 [] =
      ([((0 : ℚ), (30 : ℚ), "A")], 30, false) := by
    rw [allocLoop_next h1, allocLoop_stop h2]
  have hloop2 : allocLoop [] 200 50 10 "A" 30 30 [((0 : ℚ), (30 : ℚ), "A")] =
      ([((0 : ℚ), (30 : ℚ), "A"), ((30 : ℚ), (60 : ℚ), "A")], 60, false) := by
    rw [allocLoop_next h3, allocLoop_stop h4]
  have hmerge : ([⟨"A", 30, 1, none⟩, ⟨"A", 30, 2, none⟩] : List Task).mergeSort taskLe =
      [⟨"A", 30, 2, none⟩, ⟨"A", 30, 1, none⟩] := by
    simp [List.mergeSort, List.merge, taskLe, sort_key, Prod.Lex.le_iff]
  unfold build_schedule
  rw [if_neg (by simp), hmerge]
  have hwe : (0 : ℚ) + ((200 : ℤ) : ℚ) = 200 := by norm_num
  rw [hwe]
  simp only [outerLoop, hloop1, hloop2]

/-- C5 counterexample: with two distinct tasks both named "A" (each declaring
30 minutes) the blocks labelled "A" total 60 minutes, exceeding the declared
duration of either task, so the claim as stated fails on the code. -/
theorem C5_counterexample :
    (⟨"A", 30, 2, none⟩ : Task) ∈ [(⟨"A", 30, 1, none⟩ : Task), ⟨"A", 30, 2, none⟩] ∧
    duraSum (⟨"A", 30, 2, none⟩ : Task).name
      (build_schedule [⟨"A", 30, 1, none⟩, ⟨"A", 30, 2, none⟩] 0 200 50 10 []) = 60 ∧
    ¬ (duraSum (⟨"A", 30, 2, none⟩ : Task).name
        (build_schedule [⟨"A", 30, 1, none⟩, ⟨"A", 30, 2, none⟩] 0 200 50 10 []) ≤
      (((⟨"A", 30, 2, none⟩ : Task).duration_min : ℤ) : ℚ)) := by
  have heval : duraSum "A"
      (build_schedule [⟨"A", 30, 1, none⟩, ⟨"A", 30, 2, none⟩] 0 200 50 10 []) = 60 := by
    rw [scenarioC5_eval]
    norm_num [duraSum]
  exact ⟨by simp, heval, by rw [heval]; norm_num⟩

theorem taskLe_trans : ∀ (a b c : Task),
    taskLe a b = true → taskLe b c = true → taskLe a c = true := by
  intro a b c hab hbc
  simp only [taskLe, decide_eq_true_eq] at *
  exact le_trans hab hbc

theorem taskLe_total : ∀ (a b : Task), (taskLe a b || taskLe b a) = true := by
  intro a b
  simp only [taskLe, Bool.or_eq_true, decide_eq_true_eq]
  exact le_total _ _

/-- A task of strictly lower priority never sorts before one of strictly
higher priority. -/
theorem taskLe_false_of_priority_lt {a b : Task} (h : b.priority < a.priority) :
    taskLe b a = false := by
  have h1 : ¬ (sort_key b ≤ sort_key a) := by
    simp only [sort_key, Prod.Lex.le_iff]
    push_neg
    refine ⟨by omega, ?_⟩
    intro heq
    exfalso
    omega
  simp [taskLe, h1]

/-- In a list sorted by `taskLe`, if `taskLe b a` fails then `a` occurs
strictly before `b`. -/
theorem mem_split_of_pairwise {l : List Task} {a b : Task}
    (hpw : l.Pairwise (fun x y => taskLe x y = true))
    (ha : a ∈ l) (hb : b ∈ l) (hba : taskLe b a = false) (hne : a ≠ b) :
    ∃ l1 l2, l = l1 ++ a :: l2 ∧ b ∈ l2 := by
  induction l with
  | nil => simp at ha
  | cons t ts ih =>
    obtain ⟨hhead, htail⟩ := List.pairwise_cons.mp hpw
    by_cases hta : t = a
    · refine ⟨[], ts, by rw [hta]; rfl, ?_⟩
      rcases List.mem_cons.mp hb with hbt | hbts
      · exact absurd (hbt.trans hta).symm hne
      · exact hbts
    · have hats : a ∈ ts := by
        rcases List.mem_cons.mp ha with hat | h
        · exact absurd hat.symm hta
        · exact h
      by_cases htb : t = b
      · exfalso
        have hle := hhead a hats
        rw [htb, hba] at hle
        cases hle
      · have hbts : b ∈ ts := by
          rcases List.mem_cons.mp hb with hbt | h
          · exact absurd hbt.symm htb
          · exact h
        obtain ⟨l1, l2, hsplit, hbl2⟩ := ih htail hats hbts
        exact ⟨t :: l1, l2, by rw [List.cons_append, hsplit], hbl2⟩

/-- If task `a` (named `aname`) is processed strictly before any task that
could produce `bname`-labelled blocks, then every `aname`-labelled block of
the result starts no later than every `bname`-labelled block. -/
theorem outerLoop_order_aux {busy : List (ℚ × ℚ)} {wE : ℚ} {wbm brk : ℤ}
    (hbrk : 0 ≤ brk) {aname bname : String}
    (hna : aname ≠ "Break") (hnbb : bname ≠ "Break") (habn : aname ≠ bname) :
    ∀ (l1 : List Task) (a : Task) (l2 : List Task) (c : ℚ) (s : List Block)
      {s' : List Block} {c' : ℚ} {ab : Bool},
      a.name = aname →
      (∀ t ∈ l1, t.name ≠ aname ∧ t.name ≠ bname) →
      (∀ t ∈ l2, t.name ≠ aname) →
      (∀ blk ∈ s, blk.2.2 ≠ aname ∧ blk.2.2 ≠ bname) →
      (∀ blk ∈ s, blk.1 ≤ blk.2.1 ∧ blk.2.1 ≤ c) →
      outerLoop busy wE wbm brk (l1 ++ a :: l2) c s = (s', c', ab) →
      ∀ x ∈ s', x.2.2 = aname → ∀ y ∈ s', y.2.2 = bname → x.1 ≤ y.1 := by
  intro l1
  induction l1 with
  | nil =>
    intro a l2 c s s' c' ab han hl1 hl2 hslab hsend h
    simp only [List.nil_append, outerLoop] at h
    rcases hA : allocLoop busy wE wbm brk a.name a.duration_min c s with ⟨s1, c1, ab1⟩
    rw [hA] at h
    obtain ⟨hcc1, newA, hs1, hnewA, _⟩ := allocLoop_spec hbrk a.duration_min c s hA
    have hs1_no_b : ∀ blk ∈ s1, blk.2.2 ≠ bname := by
      intro blk hblk
      rw [hs1] at hblk
      rcases List.mem_append.mp hblk with hm | hm
      · exact (hslab blk hm).2
      · obtain ⟨_, _, _, _, hl, _⟩ := hnewA blk hm
        rcases hl with hl | hl
        · rw [hl, han]; exact habn
        · rw [hl]; exact fun hc => hnbb hc.symm
    have hs1_bound : ∀ blk ∈ s1, blk.1 ≤ blk.2.1 ∧ blk.2.1 ≤ c1 := by
      intro blk hblk
      rw [hs1] at hblk
      rcases List.mem_append.mp hblk with hm | hm
      · obtain ⟨h1, h2⟩ := hsend blk hm
        exact ⟨h1, le_trans h2 hcc1⟩
      · obtain ⟨_, h2, h3, _, _, _⟩ := hnewA blk hm
        exact ⟨h2, h3⟩
    cases ab1 with
    | true =>
      cases h
      intro x hx hxa y hy hyb
      exact absurd hyb (hs1_no_b y hy)
    | false =>
      obtain ⟨hc1c, new2, hs2, hnew2, _⟩ := outerLoop_spec hbrk l2 c1 s1 h
      intro x hx hxa y hy hyb
      have hxs1 : x ∈ s1 := by
        rw [hs2] at hx
        rcases List.mem_append.mp hx with hm | hm
        · exact hm
        · exfalso
          obtain ⟨_, _, _, _, hl, _⟩ := hnew2 x hm
          rcases hl with ⟨t, ht, hl⟩ | hl
          · rw [hxa] at hl; exact hl2 t ht hl.symm
          · rw [hxa] at hl; exact hna hl
      have hynew2 : y ∈ new2 := by
        rw [hs2] at hy
        rcases List.mem_append.mp hy with hm | hm
        · exact absurd hyb (hs1_no_b y hm)
        · exact hm
      obtain ⟨hy1, _, _, _, _, _⟩ := hnew2 y hynew2
      obtain ⟨hx1, hx2⟩ := hs1_bound x hxs1
      linarith
  | cons t rest ih =>
    intro a l2 c s s' c' ab han hl1 hl2 hslab hsend h
    simp only [List.cons_append, outerLoop] at h
    rcases hA : allocLoop busy wE wbm brk t.name t.duration_min c s with ⟨s1, c1, ab1⟩
    rw [hA] at h
    obtain ⟨hcc1, newT, hs1, hnewT, _⟩ := allocLoop_spec hbrk t.duration_min c s hA
    have hlab1 : ∀ blk ∈ s1, blk.2.2 ≠ aname ∧ blk.2.2 ≠ bname := by
      intro blk hblk
      rw [hs1] at hblk
      rcases List.mem_append.mp hblk with hm | hm
      · exact hslab blk hm
      · obtain ⟨_, _, _, _, hl, _⟩ := hnewT blk hm
        obtain ⟨hta, htb⟩ := hl1 t (List.mem_cons_self _ _)
        rcases hl with hl | hl
        · rw [hl]; exact ⟨hta, htb⟩
        · rw [hl]; exact ⟨fun hc => hna hc.symm, fun hc => hnbb hc.symm⟩
    have hend1 : ∀ blk ∈ s1, blk.1 ≤ blk.2.1 ∧ blk.2.1 ≤ c1 := by
      intro blk hblk
      rw [hs1] at hblk
      rcases List.mem_append.mp hblk with hm | hm
      · obtain ⟨h1, h2⟩ := hsend blk hm
        exact ⟨h1, le_trans h2 hcc1⟩
      · obtain ⟨_, h2, h3, _, _, _⟩ := hnewT blk hm
        exact ⟨h2, h3⟩
    cases ab1 with
    | true =>
      cases h
      intro x hx hxa y hy hyb
      exact absurd hxa (hlab1 x hx).1
    | false =>
      exact ih a l2 c1 s1 han (fun t' ht' => hl1 t' (List.mem_cons_of_mem _ ht'))
        hl2 hlab1 hend1 h

/-- C8 (amended): for every input with no busy intervals, pairwise-distinct
task names none of which is the reserved label "Break", and positive block
and break parameters: if task `a` has strictly higher priority than task `b`
and both receive at least one block, then `a`'s first block starts no later
than `b`'s first block. -/
theorem C8_priority_first_block (tasks : List Task) (start_time : ℚ)
    (total_minutes work_block_max break_minutes : ℤ)
    (hwbm : 0 < work_block_max) (hbrk : 0 < break_minutes)
    (hnames : tasks.Pairwise (fun x y => x.name ≠ y.name))
    (hnb : ∀ t ∈ tasks, t.name ≠ "Break")
    (a b : Task) (ha : a ∈ tasks) (hb : b ∈ tasks)
    (hpri : b.priority < a.priority) (blkA blkB : Block)
    (hfa : (build_schedule tasks start_time total_minutes work_block_max
        break_minutes []).find? (fun blk => decide (blk.2.2 = a.name)) = some blkA)
    (hfb : (build_schedule tasks start_time total_minutes work_block_max
        break_minutes []).find? (fun blk => decide (blk.2.2 = b.name)) = some blkB) :
    blkA.1 ≤ blkB.1 := by
  by_cases hc : total_minutes ≤ 0 ∨ tasks = []
  · exfalso
    have hempty : build_schedule tasks start_time total_minutes work_block_max
        break_minutes [] = [] := by
      unfold build_schedule; rw [if_pos hc]
    rw [hempty] at hfa
    cases hfa
  have hbuild : build_schedule tasks start_time total_minutes work_block_max
      break_minutes [] =
      (outerLoop [] (start_time + (total_minutes : ℚ)) work_block_max break_minutes
        (tasks.mergeSort taskLe) start_time []).1 := by
    unfold build_schedule; rw [if_neg hc]
  have hpwle : (tasks.mergeSort taskLe).Pairwise (fun x y => taskLe x y = true) :=
    List.sorted_mergeSort taskLe_trans taskLe_total tasks
  have hnames' : (tasks.mergeSort taskLe).Pairwise (fun x y => x.name ≠ y.name) :=
    ((List.mergeSort_perm tasks taskLe).pairwise_iff (fun h hc2 => h hc2.symm)).mpr hnames
  have hane : a ≠ b := by
    intro hcon
    rw [hcon] at hpri
    exact lt_irrefl _ hpri
  obtain ⟨l1, l2, hsplit, hbl2⟩ := mem_split_of_pairwise hpwle
    (List.mem_mergeSort.mpr ha) (List.mem_mergeSort.mpr hb)
    (taskLe_false_of_priority_lt hpri) hane
  rw [hsplit] at hnames'
  obtain ⟨hpw1, hpw2, hcross⟩ := List.pairwise_append.mp hnames'
  obtain ⟨hahead, _⟩ := List.pairwise_cons.mp hpw2
  have habn : a.name ≠ b.name := hahead b hbl2
  have hl1names : ∀ t ∈ l1, t.name ≠ a.name ∧ t.name ≠ b.name := fun t ht =>
    ⟨hcross t ht a (List.mem_cons_self _ _),
      hcross t ht b (List.mem_cons_of_mem _ hbl2)⟩
  have hl2names : ∀ t ∈ l2, t.name ≠ a.name := fun t ht hcon =>
    hahead t ht hcon.symm
  rcases hO : outerLoop [] (start_time + (total_minutes : ℚ)) work_block_max
      break_minutes (tasks.mergeSort taskLe) start_time [] with ⟨s', c', ab⟩
  have hs' : build_schedule tasks start_time total_minutes work_block_max
      break_minutes [] = s' := by rw [hbuild, hO]
  rw [hsplit] at hO
  have horder := outerLoop_order_aux (le_of_lt hbrk) (hnb a ha) (hnb b hb) habn
    l1 a l2 start_time [] rfl hl1names hl2names (by simp) (by simp) hO
  have hmemA : blkA ∈ s' := by
    rw [← hs']; exact List.mem_of_find?_eq_some hfa
  have hmemB : blkB ∈ s' := by
    rw [← hs']; exact List.mem_of_find?_eq_some hfb
  have hlabA : blkA.2.2 = a.name := by
    have := List.find?_some hfa
    simpa using this
  have hlabB : blkB.2.2 = b.name := by
    have := List.find?_some hfb
    simpa using this
  exact horder blkA hmemA hlabA blkB hmemB hlabB

/-- Evaluation of the two-task run used in C8's witness. -/
theorem scenarioC8w_eval :
    build_schedule [⟨"A", 30, 5, none⟩, ⟨"B", 30, 3, none⟩] 0 100 50 10 [] =
      [((0 : ℚ), (30 : ℚ), "A"), ((30 : ℚ), (60 : ℚ), "B")] := by
  have h1 : allocStep [] 100 50 10 "A" 30 0 [] =
      .next 0 30 [((0 : ℚ), (30 : ℚ), "A")] := by
    norm_num [allocStep, blockLen, pyInt, is_free_time]
  have h2 : allocStep [] 100 50 10 "A" 0 30 [((0 : ℚ), (30 : ℚ), "A")] = .stop false := by
    norm_num [allocStep]
  have h3 : allocStep [] 100 50 10 "B" 30 30 [((0 : ℚ), (30 : ℚ), "A")] =
      .next 0 60 [((0 : ℚ), (30 : ℚ), "A"), ((30 : ℚ), (60 : ℚ), "B")] := by
    norm_num [allocStep, blockLen, pyInt, is_free_time]
  have h4 : allocStep [] 100 50 10 "B" 0 60
      [((0 : ℚ), (30 : ℚ), "A"), ((30 : ℚ), (60 : ℚ), "B")] = .stop false := by
    norm_num [allocStep]
  have hloop1 : allocLoop [] 100 50 10 "A" 30 0 [] =
      ([((0 : ℚ), (30 : ℚ), "A")], 30, false) := by
    rw [allocLoop_next h1, allocLoop_stop h2]
  have hloop2 : allocLoop [] 100 50 10 "B" 30 30 [((0 : ℚ), (30 : ℚ), "A")] =
      ([((0 : ℚ), (30 : ℚ), "A"), ((30 : ℚ), (60 : ℚ), "B")], 60, false) := by
    rw [allocLoop_next h3, allocLoop_stop h4]
  have hmerge : ([⟨"A", 30, 5, none⟩, ⟨"B", 30, 3, none⟩] : List Task).mergeSort taskLe =
      [⟨"A", 30, 5, none⟩, ⟨"B", 30, 3, none⟩] := by
    simp [List.mergeSort, List.merge, taskLe, sort_key, Prod.Lex.le_iff]
  unfold build_schedule
  rw [if_neg (by simp), hmerge]
  have hwe : (0 : ℚ) + ((100 : ℤ) : ℚ) = 100 := by norm_num
  rw [hwe]
  simp only [outerLoop, hloop1, hloop2]

/-- Witness for C8's amended theorem: two distinctly-named tasks with
priorities 5 and 3. -/
theorem C8_witness :
    (0 : ℤ) < 50 ∧ (0 : ℤ) < 10 ∧
    ([⟨"A", 30, 5, none⟩, ⟨"B", 30, 3, none⟩] : List Task).Pairwise
      (fun x y => x.name ≠ y.name) ∧
    (∀ t ∈ ([⟨"A", 30, 5, none⟩, ⟨"B", 30, 3, none⟩] : List Task), t.name ≠ "Break") ∧
    (⟨"A", 30, 5, none⟩ : Task) ∈ ([⟨"A", 30, 5, none⟩, ⟨"B", 30, 3, none⟩] : List Task) ∧
    (⟨"B", 30, 3, none⟩ : Task) ∈ ([⟨"A", 30, 5, none⟩, ⟨"B", 30, 3, none⟩] : List Task) ∧
    (⟨"B", 30, 3, none⟩ : Task).priority < (⟨"A", 30, 5, none⟩ : Task).priority ∧
    (build_schedule [⟨"A", 30, 5, none⟩, ⟨"B", 30, 3, none⟩] 0 100 50 10 []).find?
      (fun blk => decide (blk.2.2 = (⟨"A", 30, 5, none⟩ : Task).name)) =
      some ((0 : ℚ), (30 : ℚ), "A") ∧
    (build_schedule [⟨"A", 30, 5, none⟩, ⟨"B", 30, 3, none⟩] 0 100 50 10 []).find?
      (fun blk => decide (blk.2.2 = (⟨"B", 30, 3, none⟩ : Task).name)) =
      some ((30 : ℚ), (60 : ℚ), "B") ∧
    ((0 : ℚ), (30 : ℚ), "A").1 ≤ ((30 : ℚ), (60 : ℚ), "B").1 := by
  have hfa : (build_schedule [⟨"A", 30, 5, none⟩, ⟨"B", 30, 3, none⟩] 0 100 50 10 []).find?
      (fun blk => decide (blk.2.2 = (⟨"A", 30, 5, none⟩ : Task).name)) =
      some ((0 : ℚ), (30 : ℚ), "A") := by
    rw [scenarioC8w_eval]; rfl
  have hfb : (build_schedule [⟨"A", 30, 5, none⟩, ⟨"B", 30, 3, none⟩] 0 100 50 10 []).find?
      (fun blk => decide (blk.2.2 = (⟨"B", 30, 3, none⟩ : Task).name)) =
      some ((30 : ℚ), (60 : ℚ), "B") := by
    rw [scenarioC8w_eval]; rfl
  exact ⟨by decide, by decide, by simp, by simp, by simp, by simp, by decide, hfa, hfb,
    C8_priority_first_block [⟨"A", 30, 5, none⟩, ⟨"B", 30, 3, none⟩] 0 100 50 10
      (by decide) (by decide) (by simp) (by simp)
      ⟨"A", 30, 5, none⟩ ⟨"B", 30, 3, none⟩ (by simp) (by simp) (by decide)
      ((0 : ℚ), (30 : ℚ), "A") ((30 : ℚ), (60 : ℚ), "B") hfa hfb⟩

/-- Evaluation of the duplicate-name run used to refute C8 as stated. -/
theorem scenarioC8_eval :
    build_schedule [⟨"N", 30, 9, none⟩, ⟨"A", 30, 5, none⟩, ⟨"N", 30, 3, none⟩]
      0 300 50 10 [] =
      [((0 : ℚ), (30 : ℚ), "N"), ((30 : ℚ), (60 : ℚ), "A"), ((60 : ℚ), (90 : ℚ), "N")] := by
  have h1 : allocStep [] 300 50 10 "N" 30 0 [] =
      .next 0 30 [((0 : ℚ), (30 : ℚ), "N")] := by
    norm_num [allocStep, blockLen, pyInt, is_free_time]
  have h2 : allocStep [] 300 50 10 "N" 0 30 [((0 : ℚ), (30 : ℚ), "N")] = .stop false := by
    norm_num [allocStep]
  have h3 : allocStep [] 300 50 10 "A" 30 30 [((0 : ℚ), (30 : ℚ), "N")] =
      .next 0 60 [((0 : ℚ), (30 : ℚ), "N"), ((30 : ℚ), (60 : ℚ), "A")] := by
    norm_num [allocStep, blockLen, pyInt, is_free_time]
  have h4 : allocStep [] 300 50 10 "A" 0 60
      [((0 : ℚ), (30 : ℚ), "N"), ((30 : ℚ), (60 : ℚ), "A")] = .stop false := by
    norm_num [allocStep]
  have h5 : allocStep [] 300 50 10 "N" 30 60
      [((0 : ℚ), (30 : ℚ), "N"), ((30 : ℚ), (60 : ℚ), "A")] =
      .next 0 90 [((0 : ℚ), (30 : ℚ), "N"), ((30 : ℚ), (60 : ℚ), "A"),
        ((60 : ℚ), (90 : ℚ), "N")] := by
    norm_num [allocStep, blockLen, pyInt, is_free_time]
  have h6 : allocStep [] 300 50 10 "N" 0 90
      [((0 : ℚ), (30 : ℚ), "N"), ((30 : ℚ), (60 : ℚ), "A"),
        ((60 : ℚ), (90 : ℚ), "N")] = .stop false := by
    norm_num [allocStep]
  have hloop1 : allocLoop [] 300 50 10 "N" 30 0 [] =
      ([((0 : ℚ), (30 : ℚ), "N")], 30, false) := by
    rw [allocLoop_next h1, allocLoop_stop h2]
  have hloop2 : allocLoop [] 300 50 10 "A" 30 30 [((0 : ℚ), (30 : ℚ), "N")] =
      ([((0 : ℚ), (30 : ℚ), "N"), ((30 : ℚ), (60 : ℚ), "A")], 60, false) := by
    rw [allocLoop_next h3, allocLoop_stop h4]
  have hloop3 : allocLoop [] 300 50 10 "N" 30 60
      [((0 : ℚ), (30 : ℚ), "N"), ((30 : ℚ), (60 : ℚ), "A")] =
      ([((0 : ℚ), (30 : ℚ), "N"), ((30 : ℚ), (60 : ℚ), "A"),
        ((60 : ℚ), (90 : ℚ), "N")], 90, false) := by
    rw [allocLoop_next h5, allocLoop_stop h6]
  have hmerge : ([⟨"N", 30, 9, none⟩, ⟨"A", 30, 5, none⟩, ⟨"N", 30, 3, none⟩] :
      List Task).mergeSort taskLe =
      [⟨"N", 30, 9, none⟩, ⟨"A", 30, 5, none⟩, ⟨"N", 30, 3, none⟩] := by
    simp [List.mergeSort, List.merge, taskLe, sort_key, Prod.Lex.le_iff]
  unfold build_schedule
  rw [if_neg (by simp), hmerge]
  have hwe : (0 : ℚ) + ((300 : ℤ) : ℚ) = 300 := by norm_num
  rw [hwe]
  simp only [outerLoop, hloop1, hloop2, hloop3]

/-- C8 counterexample: with two tasks sharing the name "N", the blocks of the
higher-priority namesake count as task `b`'s blocks.  Task `a` = "A" (priority
5) and task `b` = ("N", priority 3) both receive blocks, yet `a`'s first block
starts at minute 30 while the first "N"-labelled block starts at minute 0, so
the claim as stated fails on the code. -/
theorem C8_counterexample :
    (⟨"N", 30, 3, none⟩ : Task).priority < (⟨"A", 30, 5, none⟩ : Task).priority ∧
    (⟨"A", 30, 5, none⟩ : Task) ∈
      ([⟨"N", 30, 9, none⟩, ⟨"A", 30, 5, none⟩, ⟨"N", 30, 3, none⟩] : List Task) ∧
    (⟨"N", 30, 3, none⟩ : Task) ∈
      ([⟨"N", 30, 9, none⟩, ⟨"A", 30, 5, none⟩, ⟨"N", 30, 3, none⟩] : List Task) ∧
    (build_schedule [⟨"N", 30, 9, none⟩, ⟨"A", 30, 5, none⟩, ⟨"N", 30, 3, none⟩]
        0 300 50 10 []).find?
      (fun blk => decide (blk.2.2 = (⟨"A", 30, 5, none⟩ : Task).name)) =
      some ((30 : ℚ), (60 : ℚ), "A") ∧
    (build_schedule [⟨"N", 30, 9, none⟩, ⟨"A", 30, 5, none⟩, ⟨"N", 30, 3, none⟩]
        0 300 50 10 []).find?
      (fun blk => decide (blk.2.2 = (⟨"N", 30, 3, none⟩ : Task).name)) =
      some ((0 : ℚ), (30 : ℚ), "N") ∧
    ¬ (((30 : ℚ), (60 : ℚ), "A").1 ≤ ((0 : ℚ), (30 : ℚ), "N").1) := by
  refine ⟨by decide, by simp, by simp, ?_, ?_, by norm_num⟩
  · rw [scenarioC8_eval]; rfl
  · rw [scenarioC8_eval]; rfl

/-- Evaluation of Scenario 1: tasks A(90 min, priority 5), B(60, 3),
C(45, 2); start 18:00 (minute 1080 of the day), window 180 minutes,
work max 50, break 10, no busy intervals. -/
theorem scenario1_eval :
    build_schedule [⟨"A", 90, 5, none⟩, ⟨"B", 60, 3, none⟩, ⟨"C", 45, 2, none⟩]
      1080 180 50 10 [] =
      [((1080 : ℚ), (1130 : ℚ), "A"), ((1130 : ℚ), (1140 : ℚ), "Break"),
        ((1140 : ℚ), (1180 : ℚ), "A"), ((1180 : ℚ), (1230 : ℚ), "B"),
        ((1230 : ℚ), (1240 : ℚ), "Break"), ((1240 : ℚ), (1250 : ℚ), "B"),
        ((1250 : ℚ), (1260 : ℚ), "C")] := by
  have a1 : allocStep [] 1260 50 10 "A" 90 1080 [] =
      .next 40 1140 [((1080 : ℚ), (1130 : ℚ), "A"), ((1130 : ℚ), (1140 : ℚ), "Break")] := by
    norm_num [allocStep, blockLen, pyInt, is_free_time]
  have a2 : allocStep [] 1260 50 10 "A" 40 1140
      [((1080 : ℚ), (1130 : ℚ), "A"), ((1130 : ℚ), (1140 : ℚ), "Break")] =
      .next 0 1180 [((1080 : ℚ), (1130 : ℚ), "A"), ((1130 : ℚ), (1140 : ℚ), "Break"),
        ((1140 : ℚ), (1180 : ℚ), "A")] := by
    norm_num [allocStep, blockLen, pyInt, is_free_time]
  have a3 : allocStep [] 1260 50 10 "A" 0 1180
      [((1080 : ℚ), (1130 : ℚ), "A"), ((1130 : ℚ), (1140 : ℚ), "Break"),
        ((1140 : ℚ), (1180 : ℚ), "A")] = .stop false := by
    norm_num [allocStep]
  have b1 : allocStep [] 1260 50 10 "B" 60 1180
      [((1080 : ℚ), (1130 : ℚ), "A"), ((1130 : ℚ), (1140 : ℚ), "Break"),
        ((1140 : ℚ), (1180 : ℚ), "A")] =
      .next 10 1240 [((1080 : ℚ), (1130 : ℚ), "A"), ((1130 : ℚ), (1140 : ℚ), "Break"),
        ((1140 : ℚ), (1180 : ℚ), "A"), ((1180 : ℚ), (1230 : ℚ), "B"),
        ((1230 : ℚ), (1240 : ℚ), "Break")] := by
    norm_num [allocStep, blockLen, pyInt, is_free_time]
  have b2 : allocStep [] 1260 50 10 "B" 10 1240
      [((1080 : ℚ), (1130 : ℚ), "A"), ((1130 : ℚ), (1140 : ℚ), "Break"),
        ((1140 : ℚ), (1180 : ℚ), "A"), ((1180 : ℚ), (1230 : ℚ), "B"),
        ((1230 : ℚ), (1240 : ℚ), "Break")] =
      .next 0 1250 [((1080 : ℚ), (1130 : ℚ), "A"), ((1130 : ℚ), (1140 : ℚ), "Break"),
        ((1140 : ℚ), (1180 : ℚ), "A"), ((1180 : ℚ), (1230 : ℚ), "B"),
        ((1230 : ℚ), (1240 : ℚ), "Break"), ((1240 : ℚ), (1250 : ℚ), "B")] := by
    norm_num [allocStep, blockLen, pyInt, is_free_time]
  have b3 : allocStep [] 1260 50 10 "B" 0 1250
      [((1080 : ℚ), (1130 : ℚ), "A"), ((1130 : ℚ), (1140 : ℚ), "Break"),
        ((1140 : ℚ), (1180 : ℚ), "A"), ((1180 : ℚ), (1230 : ℚ), "B"),
        ((1230 : ℚ), (1240 : ℚ), "Break"), ((1240 : ℚ), (1250 : ℚ), "B")] =
      .stop false := by
    norm_num [allocStep]
  have c1 : allocStep [] 1260 50 10 "C" 45 1250
      [((1080 : ℚ), (1130 : ℚ), "A"), ((1130 : ℚ), (1140 : ℚ), "Break"),
        ((1140 : ℚ), (1180 : ℚ), "A"), ((1180 : ℚ), (1230 : ℚ), "B"),
        ((1230 : ℚ), (1240 : ℚ), "Break"), ((1240 : ℚ), (1250 : ℚ), "B")] =
      .next 35 1260 [((1080 : ℚ), (1130 : ℚ), "A"), ((1130 : ℚ), (1140 : ℚ), "Break"),
        ((1140 : ℚ), (1180 : ℚ), "A"), ((1180 : ℚ), (1230 : ℚ), "B"),
        ((1230 : ℚ), (1240 : ℚ), "Break"), ((1240 : ℚ), (1250 : ℚ), "B"),
        ((1250 : ℚ), (1260 : ℚ), "C")] := by
    norm_num [allocStep, blockLen, pyInt, is_free_time]
  have c2 : allocStep [] 1260 50 10 "C" 35 1260
      [((1080 : ℚ), (1130 : ℚ), "A"), ((1130 : ℚ), (1140 : ℚ), "Break"),
        ((1140 : ℚ), (1180 : ℚ), "A"), ((1180 : ℚ), (1230 : ℚ), "B"),
        ((1230 : ℚ), (1240 : ℚ), "Break"), ((1240 : ℚ), (1250 : ℚ), "B"),
        ((1250 : ℚ), (1260 : ℚ), "C")] = .stop false := by
    norm_num [allocStep]
  have hloopA : allocLoop [] 1260 50 10 "A" 90 1080 [] =
      ([((1080 : ℚ), (1130 : ℚ), "A"), ((1130 : ℚ), (1140 : ℚ), "Break"),
        ((1140 : ℚ), (1180 : ℚ), "A")], 1180, false) := by
    rw [allocLoop_next a1, allocLoop_next a2, allocLoop_stop a3]
  have hloopB : allocLoop [] 1260 50 10 "B" 60 1180
      [((1080 : ℚ), (1130 : ℚ), "A"), ((1130 : ℚ), (1140 : ℚ), "Break"),
        ((1140 : ℚ), (1180 : ℚ), "A")] =
      ([((1080 : ℚ), (1130 : ℚ), "A"), ((1130 : ℚ), (1140 : ℚ), "Break"),
        ((1140 : ℚ), (1180 : ℚ), "A"), ((1180 : ℚ), (1230 : ℚ), "B"),
        ((1230 : ℚ), (1240 : ℚ), "Break"), ((1240 : ℚ), (1250 : ℚ), "B")], 1250, false) := by
    rw [allocLoop_next b1, allocLoop_next b2, allocLoop_stop b3]
  have hloopC : allocLoop [] 1260 50 10 "C" 45 1250
      [((1080 : ℚ), (1130 : ℚ), "A"), ((1130 : ℚ), (1140 : ℚ), "Break"),
        ((1140 : ℚ), (1180 : ℚ), "A"), ((1180 : ℚ), (1230 : ℚ), "B"),
        ((1230 : ℚ), (1240 : ℚ), "Break"), ((1240 : ℚ), (1250 : ℚ), "B")] =
      ([((1080 : ℚ), (1130 : ℚ), "A"), ((1130 : ℚ), (1140 : ℚ), "Break"),
        ((1140 : ℚ), (1180 : ℚ), "A"), ((1180 : ℚ), (1230 : ℚ), "B"),
        ((1230 : ℚ), (1240 : ℚ), "Break"), ((1240 : ℚ), (1250 : ℚ), "B"),
        ((1250 : ℚ), (1260 : ℚ), "C")], 1260, false) := by
    rw [allocLoop_next c1, allocLoop_stop c2]
  have hmerge : ([⟨"A", 90, 5, none⟩, ⟨"B", 60, 3, none⟩, ⟨"C", 45, 2, none⟩] :
      List Task).mergeSort taskLe =
      [⟨"A", 90, 5, none⟩, ⟨"B", 60, 3, none⟩, ⟨"C", 45, 2, none⟩] := by
    simp [List.mergeSort, List.merge, taskLe, sort_key, Prod.Lex.le_iff]
  unfold build_schedule
  rw [if_neg (by simp), hmerge]
  have hwe : (1080 : ℚ) + ((180 : ℤ) : ℚ) = 1260 := by norm_num
  rw [hwe]
  simp only [outerLoop, hloopA, hloopB, hloopC]

/-- C1 counterexample: on Scenario 1's input the code does NOT return the
block sequence stated in the claim (the claim inserts a break after A's final
block, which the code never does, and the claim starves task C, which the
code actually grants the final 10 minutes). -/
theorem C1_counterexample :
    build_schedule [⟨"A", 90, 5, none⟩, ⟨"B", 60, 3, none⟩, ⟨"C", 45, 2, none⟩]
      1080 180 50 10 [] ≠
      [((1080 : ℚ), (1130 : ℚ), "A"), ((1130 : ℚ), (1140 : ℚ), "Break"),
        ((1140 : ℚ), (1180 : ℚ), "A"), ((1180 : ℚ), (1190 : ℚ), "Break"),
        ((1190 : ℚ), (1240 : ℚ), "B"), ((1240 : ℚ), (1250 : ℚ), "Break"),
        ((1250 : ℚ), (1260 : ℚ), "B")] := by
  rw [scenario1_eval]
  intro h
  simp at h

/-- C1 (amended): for the input tasks = [("A",90,5), ("B",60,3), ("C",45,2)],
start 18:00 (minute 1080), window 180 minutes, work max 50, break 10 and no
busy intervals, `build_schedule` returns exactly: A 18:00-18:50,
Break 18:50-19:00, A 19:00-19:40, B 19:40-20:30, Break 20:30-20:40,
B 20:40-20:50, C 20:50-21:00 — no break follows A's final block, and task C
receives the last 10 minutes of the window. -/
theorem C1_example_schedule :
    build_schedule [⟨"A", 90, 5, none⟩, ⟨"B", 60, 3, none⟩, ⟨"C", 45, 2, none⟩]
      1080 180 50 10 [] =
      [((1080 : ℚ), (1130 : ℚ), "A"), ((1130 : ℚ), (1140 : ℚ), "Break"),
        ((1140 : ℚ), (1180 : ℚ), "A"), ((1180 : ℚ), (1230 : ℚ), "B"),
        ((1230 : ℚ), (1240 : ℚ), "Break"), ((1240 : ℚ), (1250 : ℚ), "B"),
        ((1250 : ℚ), (1260 : ℚ), "C")] :=
  scenario1_eval

/-- Evaluation of the run exhibiting C10: the break `[50, 60)` is appended
without any check against the busy interval `[55, 58)`. -/
theorem scenarioC10_eval :
    build_schedule [⟨"T", 60, 1, none⟩] 0 100 50 10 [((55 : ℚ), (58 : ℚ))] =
      [((0 : ℚ), (50 : ℚ), "T"), ((50 : ℚ), (60 : ℚ), "Break"),
        ((60 : ℚ), (70 : ℚ), "T")] := by
  have h1 : allocStep [((55 : ℚ), (58 : ℚ))] 100 50 10 "T" 60 0 [] =
      .next 10 60 [((0 : ℚ), (50 : ℚ), "T"), ((50 : ℚ), (60 : ℚ), "Break")] := by
    norm_num [allocStep, blockLen, pyInt, is_free_time]
  have h2 : allocStep [((55 : ℚ), (58 : ℚ))] 100 50 10 "T" 10 60
      [((0 : ℚ), (50 : ℚ), "T"), ((50 : ℚ), (60 : ℚ), "Break")] =
      .next 0 70 [((0 : ℚ), (50 : ℚ), "T"), ((50 : ℚ), (60 : ℚ), "Break"),
        ((60 : ℚ), (70 : ℚ), "T")] := by
    norm_num [allocStep, blockLen, pyInt, is_free_time]
  have h3 : allocStep [((55 : ℚ), (58 : ℚ))] 100 50 10 "T" 0 70
      [((0 : ℚ), (50 : ℚ), "T"), ((50 : ℚ), (60 : ℚ), "Break"),
        ((60 : ℚ), (70 : ℚ), "T")] = .stop false := by
    norm_num [allocStep]
  have hloop : allocLoop [((55 : ℚ), (58 : ℚ))] 100 50 10 "T" 60 0 [] =
      ([((0 : ℚ), (50 : ℚ), "T"), ((50 : ℚ), (60 : ℚ), "Break"),
        ((60 : ℚ), (70 : ℚ), "T")], 70, false) := by
    rw [allocLoop_next h1, allocLoop_next h2, allocLoop_stop h3]
  have hmerge : ([⟨"T", 60, 1, none⟩] : List Task).mergeSort taskLe =
      [⟨"T", 60, 1, none⟩] := by
    simp [List.mergeSort]
  unfold build_schedule
  rw [if_neg (by simp), hmerge]
  have hwe : (0 : ℚ) + ((100 : ℤ) : ℚ) = 100 := by norm_num
  rw [hwe]
  simp only [outerLoop, hloop]

/-- C10: break blocks are not checked against busy intervals — on this
well-formed input (positive parameters, busy interval with start < end) the
output contains the block `(50, 60, "Break")`, which intersects the input
busy interval `[55, 58)` (`50 < 58` and `60 > 55`). -/
theorem C10_break_overlaps_busy :
    ((0 : ℤ) < 50 ∧ (0 : ℤ) < 10 ∧
      (∀ iv ∈ [((55 : ℚ), (58 : ℚ))], iv.1 < iv.2)) ∧
    ((50 : ℚ), (60 : ℚ), "Break") ∈
      build_schedule [⟨"T", 60, 1, none⟩] 0 100 50 10 [((55 : ℚ), (58 : ℚ))] ∧
    ((50 : ℚ), (60 : ℚ), "Break").2.2 = "Break" ∧
    ((55 : ℚ), (58 : ℚ)) ∈ [((55 : ℚ), (58 : ℚ))] ∧
    (50 : ℚ) < (58 : ℚ) ∧ (60 : ℚ) > (55 : ℚ) := by
  refine ⟨⟨by decide, by decide, by norm_num⟩, ?_, rfl, by simp, by norm_num, by norm_num⟩
  rw [scenarioC10_eval]
  simp

end StudyPlanner
